import Mathlib

/-!
Verification of the AnisuPlayer transcoding orchestrator
(`src/unnamed/part_000`, the encoder service with hardware fallback)
against its natural-language specification.

The TypeScript source is shallowly embedded: the database (better-sqlite3
tables `videos`, `video_sources`, `subtitles`, `encoding_jobs`), the
filesystem artifacts, and the in-memory `activeEncodings` map are one
explicit state record; the asynchronous ffmpeg subprocess is an oracle
(`AttemptObs`/`RungObs`) recording the progress ticks it delivered, how it
exited, and the state of the cancellation flag at each observation point.
JavaScript numbers are modelled as `Rat` (the progress arithmetic involved
is exact at the magnitudes in play), machine strings as `String`.
-/

namespace AnisuPlayer

/-- One entry of the static encoding ladder, mirroring the `Resolution`
interface of the source (`name`, `width`, `height`, `bitrate`,
`audioBitrate`; the bitrates are strings such as "600k"). -/
structure Resolution where
  name : String
  width : Nat
  height : Nat
  bitrate : String
  audioBitrate : String
deriving Repr, DecidableEq

/-- The fixed master ladder `RESOLUTIONS` of the encoder service, ordered
from lowest to highest height exactly as in the source. -/
def RESOLUTIONS : List Resolution :=
  [ { name := "360p",  width := 640,  height := 360,  bitrate := "600k",  audioBitrate := "96k" },
    { name := "480p",  width := 854,  height := 480,  bitrate := "1000k", audioBitrate := "128k" },
    { name := "720p",  width := 1280, height := 720,  bitrate := "2500k", audioBitrate := "128k" },
    { name := "1080p", width := 1920, height := 1080, bitrate := "5000k", audioBitrate := "192k" } ]

/-- `getTargetResolutions` of the source: filter the master ladder to the
entries whose height does not exceed the source height (list order, hence
ascending order, is preserved by `filter`). -/
def getTargetResolutions (sourceHeight : Nat) : List Resolution :=
  RESOLUTIONS.filter (fun r => r.height ≤ sourceHeight)

/-- JavaScript `parseInt` applied to the bitrate strings of the ladder:
the numeric value of the longest digit prefix ("600k" evaluates to 600).
(For the strings of `RESOLUTIONS` a digit prefix is always present.) -/
def parseIntLeading (s : String) : Nat :=
  (s.data.takeWhile Char.isDigit).foldl (fun n c => n * 10 + (c.toNat - 48)) 0

/-- The comparator `(a, b) => a.height - b.height` used by
`generateMasterPlaylist` orders by ascending height. -/
def heightLe (a b : Resolution) : Prop := a.height ≤ b.height

instance : DecidableRel heightLe := fun a b => Nat.decLe a.height b.height

/-- The stable JavaScript `Array.prototype.sort` with the ascending-height
comparator, modelled by Mathlib's stable insertion sort. -/
def sortByHeight (rs : List Resolution) : List Resolution :=
  List.insertionSort heightLe rs

/-- The `#EXT-X-STREAM-INF` line emitted per rung by
`generateMasterPlaylist`: bandwidth is `parseInt(bitrate) * 1000`,
resolution is the rung's nominal `width x height`, the name is quoted. -/
def streamInfLine (r : Resolution) : String :=
  "#EXT-X-STREAM-INF:BANDWIDTH=" ++ toString (parseIntLeading r.bitrate * 1000) ++
    ",RESOLUTION=" ++ toString r.width ++ "x" ++ toString r.height ++
    ",NAME=\"" ++ r.name ++ "\""

/-- The lines written to `master.m3u8` by `generateMasterPlaylist`: the two
header lines, then for each rung of the (height-sorted) input two pushed
lines, translated as the same left fold over the sorted list. -/
def generateMasterPlaylistLines (resolutions : List Resolution) : List String :=
  (sortByHeight resolutions).foldl
    (fun lines r => lines ++ [streamInfLine r, r.name ++ ".m3u8"])
    ["#EXTM3U", "#EXT-X-VERSION:3"]

/-- Restatement of the playlist body following the specification text: a
header, then per completed rung (ascending height) a stream-info line and
the rung playlist reference. Used to compare with the translation of the
source. -/
def masterPlaylistSpecLines (resolutions : List Resolution) : List String :=
  ["#EXTM3U", "#EXT-X-VERSION:3"] ++
    ((sortByHeight resolutions).map (fun r => [streamInfLine r, r.name ++ ".m3u8"])).flatten

/-- A row of the `videos` table, restricted to the columns the encoder
service reads or writes (`duration`, `thumbnail`). -/
structure VideoRow where
  duration : Option Rat
  thumbnail : Option String
deriving Repr, DecidableEq

/-- A row of the `video_sources` table as inserted by the encoder
(`video_id`, `resolution`, `url`, `file_size`; `is_local` is always 1 on
these inserts and is omitted). -/
structure SourceRow where
  videoId : String
  resolution : String
  url : String
  fileSize : Nat
deriving Repr, DecidableEq

/-- A row of the `subtitles` table as inserted by `startEncodingJob`. -/
structure SubtitleRow where
  videoId : String
  label : String
  language : String
  url : String
  isDefault : Bool
deriving Repr, DecidableEq

/-- A row of the `encoding_jobs` table, restricted to the columns the
service writes.  `resolutionsCompleted` and `resolutionsPending` hold the
decoded JSON arrays; `completedAt` records whether the timestamp column
has been set.  (`started_at` and `estimated_time_remaining` are wall-clock
quantities outside the model; no claim mentions them.) -/
structure JobRecord where
  videoId : String
  status : String
  progress : Rat
  currentResolution : Option String
  resolutionsCompleted : List String
  resolutionsPending : List String
  completedAt : Bool
  error : Option String
deriving Repr, DecidableEq

/-- The `encoding_jobs` row created by `startEncodingJob`
(`status = 'pending'`, the planned rung names pending, and the schema
defaults `progress = 0`, `resolutions_completed = '[]'`). -/
def initialJobRecord (videoId : String) (pending : List String) : JobRecord :=
  { videoId := videoId
    status := "pending"
    progress := 0
    currentResolution := none
    resolutionsCompleted := []
    resolutionsPending := pending
    completedAt := false
    error := none }

/-- An entry of the in-memory `activeEncodings` map: the owning video id
and the cancellation flag.  (The `command` subprocess reference is part of
the oracle, not of the persistent state.) -/
structure Handle where
  videoId : String
  cancelled : Bool
deriving Repr, DecidableEq

/-- The combined persistent state: the four database tables, the
`activeEncodings` registry (an insertion-ordered association list, as a
JavaScript `Map` iterates in insertion order), and the on-disk artifacts
the service manipulates — uploaded input files, per-video output
directories, thumbnails, and the contents of `master.m3u8` per video. -/
structure SysState where
  videos : String → Option VideoRow
  videoSources : List SourceRow
  subtitles : List SubtitleRow
  jobs : String → Option JobRecord
  activeEncodings : List (String × Handle)
  inputFiles : String → Bool
  videoDirs : String → Bool
  thumbFiles : String → Bool
  masterFiles : String → Option (List String)

/-- An SQL `UPDATE encoding_jobs ... WHERE id = ?`: rewrite the row with
the given id if it exists, leave every other row alone. -/
def updateJob (jobId : String) (f : JobRecord → JobRecord) (st : SysState) : SysState :=
  { st with jobs := fun k => if k = jobId then (st.jobs k).map f else st.jobs k }

/-- `activeEncodings.get(jobId)` of the source. -/
def lookupHandle (st : SysState) (jobId : String) : Option Handle :=
  (st.activeEncodings.find? (fun p => p.1 == jobId)).map (fun p => p.2)

/-- `activeEncodings.set(jobId, h)`: replace in place if the key is
present, append otherwise (JavaScript `Map.set` semantics). -/
def setHandle (jobId : String) (h : Handle) (st : SysState) : SysState :=
  { st with activeEncodings :=
      if st.activeEncodings.any (fun p => p.1 == jobId) then
        st.activeEncodings.map (fun p => if p.1 == jobId then (p.1, h) else p)
      else
        st.activeEncodings ++ [(jobId, h)] }

/-- `activeEncodings.delete(jobId)`. -/
def removeHandle (jobId : String) (st : SysState) : SysState :=
  { st with activeEncodings := st.activeEncodings.filter (fun p => !(p.1 == jobId)) }

/-- The exported `cancelEncoding(jobId)` of the source: if a handle is
registered, set its `cancelled` flag (the hard kill of the subprocess is
observed by the oracle) and return `true`; otherwise return `false`. -/
def cancelEncoding (jobId : String) (st : SysState) : SysState × Bool :=
  match lookupHandle st jobId with
  | some _ =>
      ({ st with activeEncodings := (st.activeEncodings.map
          (fun p => if p.1 == jobId then (p.1, { p.2 with cancelled := true }) else p)) },
        true)
  | none => (st, false)

/-- The exported `getActiveJobForVideo(videoId)` of the source: first
registered job id whose handle carries this video id. -/
def getActiveJobForVideo (videoId : String) (st : SysState) : Option String :=
  (st.activeEncodings.find? (fun p => p.2.videoId == videoId)).map (fun p => p.1)

/-- `deleteVideoFiles(videoId)` of the source: remove the video's output
directory (recursively, hence also its `master.m3u8`) and its thumbnail,
each tolerated as already absent. -/
def deleteVideoFiles (videoId : String) (st : SysState) : SysState :=
  { st with
      videoDirs := fun v => if v = videoId then false else st.videoDirs v
      masterFiles := fun v => if v = videoId then none else st.masterFiles v
      thumbFiles := fun v => if v = videoId then false else st.thumbFiles v }

/-- How one ffmpeg subprocess invocation terminated: the `end` event, or
the `error` event carrying the underlying message. -/
inductive ExitKind where
  | normal : ExitKind
  | abnormal (msg : String) : ExitKind
deriving Repr, DecidableEq

/-- Oracle for one subprocess attempt inside `encodeToHLS`: the percent
values it forwarded to `onProgress` before terminating (the source clamps
each to the interval 0..100 before forwarding; `clampTick` is applied on
consumption), how it exited, and whether the job's cancellation flag was
set when the `error` event fired (the flag is read from `activeEncodings`
at that moment; it is set concurrently by `cancelEncoding`). -/
structure AttemptObs where
  ticks : List Rat
  exit : ExitKind
  cancelledAtExit : Bool
deriving Repr, DecidableEq

/-- Oracle for one iteration of the rung loop of `processEncodingJob`:
the flag value at the loop-head cancellation check, the GPU probe outcome
for this rung (`checkGPUAvailable`), the first subprocess attempt, the
CPU retry attempt (consulted only when the first attempt was a hardware
attempt that failed without cancellation), the total size of the rung's
segment files on success, and an optional exception thrown by the
rung-start UPDATE statement (`db.prepare(... current_resolution ...).run`
can throw, e.g. on a database I/O error); that statement lies between the
loop-head cancellation check and the inner try, so such an exception
propagates to the job-level catch.  (An exception thrown by the
post-encode bookkeeping — `fs.readdirSync`/`statSync`/the INSERT — is
caught by the inner catch and skips the rung exactly like a
non-cancellation encode rejection carrying the same message, so that
class of executions is already represented by the attempt oracle's
abnormal exits.) -/
structure RungObs where
  cancelledBefore : Bool
  gpuAvailable : Bool
  first : AttemptObs
  retry : AttemptObs
  segSize : Nat
  fatal : Option String
deriving Repr, DecidableEq

/-- Terminal outcome of one subprocess attempt as decided by the
`end`/`error` handlers of `encodeToHLS` when no hardware fallback is
available: normal exit resolves; on error, a set cancellation flag yields
the distinguished `CANCELLED` rejection, otherwise the underlying error
is re-raised. -/
def attemptResult (a : AttemptObs) : Except String Unit :=
  match a.exit with
  | .normal => .ok ()
  | .abnormal msg => if a.cancelledAtExit then .error "CANCELLED" else .error msg

/-- Terminal outcome of `encodeToHLS(..., useGPU)`: with a hardware
backend in use (`useGPU` and the probe found one), a non-cancelled
failure of the first attempt triggers exactly one recursive retry with
`useGPU = false` (the software/libx264 parameter set), whose outcome is
propagated; otherwise the single attempt decides. -/
def encodeToHLSResult (useGPU : Bool) (o : RungObs) : Except String Unit :=
  if useGPU && o.gpuAvailable then
    match o.first.exit with
    | .normal => .ok ()
    | .abnormal _ =>
        if o.first.cancelledAtExit then .error "CANCELLED"
        else attemptResult o.retry
  else attemptResult o.first

/-- Number of subprocess attempts `encodeToHLS` makes for one call. -/
def encodeAttempts (useGPU : Bool) (o : RungObs) : Nat :=
  if useGPU && o.gpuAvailable then
    match o.first.exit with
    | .normal => 1
    | .abnormal _ => if o.first.cancelledAtExit then 1 else 2
  else 1

/-- Which conceptual video-encoder parameter set a call to `encodeToHLS`
selects, following the if/else chain over `gpuConfig` in the source: the
probed hardware backend when `useGPU` holds and one is available, and the
CPU encoder `libx264` otherwise (in particular always on the recursive
retry call, which passes `useGPU = false`). -/
def selectsSoftwareEncoder (useGPU gpuAvailable : Bool) : Bool :=
  !(useGPU && gpuAvailable)

/-- The progress percent values forwarded to `onProgress` over the whole
of one `encodeToHLS` call: the first attempt's ticks, followed by the
retry attempt's ticks when the hardware fallback re-invocation happens
(the recursive call shares the same `onProgress` callback). -/
def rungTicks (useGPU : Bool) (o : RungObs) : List Rat :=
  if useGPU && o.gpuAvailable then
    match o.first.exit with
    | .normal => o.first.ticks
    | .abnormal _ =>
        if o.first.cancelledAtExit then o.first.ticks
        else o.first.ticks ++ o.retry.ticks
  else o.first.ticks

/-- The clamp `Math.min(100, Math.max(0, p))` applied by `encodeToHLS`
to each percent value before forwarding it. -/
def clampTick (q : Rat) : Rat := min 100 (max 0 q)

/-- The aggregate progress the orchestrator computes from one forwarded
tick during rung `i` of `total`:
`((i + resolutionProgress) / totalResolutions) * 100`. -/
def overallOf (i total : Nat) (tick : Rat) : Rat :=
  (((i : Rat) + clampTick tick / 100) / (total : Rat)) * 100

/-- The base progress persisted at the start of rung `i` of `total`:
`(i / totalResolutions) * 100`. -/
def baseProg (i total : Nat) : Rat := ((i : Rat) / (total : Rat)) * 100

/-- The sequence of `progress` values the orchestrator persists from the
ticks of rung `i`: each tick is converted to aggregate progress, and the
write is skipped unless the aggregate is positive (the source guards the
UPDATE with `overallProgress > 0`). -/
def tickWrites (i total : Nat) (ticks : List Rat) : List Rat :=
  (ticks.map (overallOf i total)).filter (fun o => decide (0 < o))

/-- Persist a sequence of tick-driven progress updates
(`SET progress = ?, status = 'encoding'`; the wall-clock ETA column is
outside the model). -/
def applyTickWrites (jobId : String) (ws : List Rat) (st : SysState) : SysState :=
  ws.foldl (fun s w => updateJob jobId (fun j => { j with progress := w, status := "encoding" }) s) st

/-- URL under which a completed rung's playlist is recorded in
`video_sources`. -/
def sourceUrl (videoId rungName : String) : String :=
  "/storage/videos/" ++ videoId ++ "/" ++ rungName ++ ".m3u8"

/-- Accumulator threaded through the rung loop: the system state, the
local `completedResolutions` array, and two observation traces — every
`progress` value persisted so far and the names of the rungs whose
processing was started (in order). -/
structure RunAcc where
  sys : SysState
  completed : List String
  progressTrace : List Rat
  startedTrace : List String

/-- State of one loop iteration after the rung-start UPDATE (setting
`current_resolution`, the remaining `resolutions_pending` and the base
progress `(i / total) * 100`) and after the `encodeToHLS` call forwarded
its ticks, each persisting aggregate progress.  The two traces record the
base write plus the tick writes, and the started rung. -/
def encodeStepAcc (jobId : String) (total i : Nat) (o : RungObs) (r : Resolution)
    (rest : List Resolution) (acc : RunAcc) : RunAcc :=
  let base : Rat := ((i : Rat) / (total : Rat)) * 100
  let s1 := updateJob jobId
    (fun j => { j with
      currentResolution := some r.name
      resolutionsPending := (r :: rest).map Resolution.name
      progress := base }) acc.sys
  let ws := tickWrites i total (rungTicks true o)
  { sys := applyTickWrites jobId ws s1
    completed := acc.completed
    progressTrace := acc.progressTrace ++ base :: ws
    startedTrace := acc.startedTrace ++ [r.name] }

/-- Bookkeeping after a successful rung encode: the rung's
`video_sources` row is inserted, the rung name is appended to the local
`completedResolutions` array, and `resolutions_completed` is
persisted. -/
def successAcc (jobId videoId : String) (o : RungObs) (r : Resolution) (acc1 : RunAcc) : RunAcc :=
  let s3 := { acc1.sys with videoSources := acc1.sys.videoSources ++
    [{ videoId := videoId, resolution := r.name,
       url := sourceUrl videoId r.name, fileSize := o.segSize }] }
  let completed2 := acc1.completed ++ [r.name]
  { acc1 with
      sys := updateJob jobId (fun j => { j with resolutionsCompleted := completed2 }) s3
      completed := completed2 }

/-- The sequential rung loop of `processEncodingJob`, one iteration per
planned resolution, driven by the oracle `sched` (rung index to
observation).  Per iteration, in source order: the loop-head cancellation
check (throws `CANCELLED`); the rung-start UPDATE, which lies outside the
inner try and whose exception (oracle `fatal`) therefore propagates out
of the loop with nothing persisted for this rung; then the encode with
its progress writes (`encodeStepAcc`) inside the inner try — by outcome,
`CANCELLED` is re-thrown, any other inner-try failure (an encode
rejection, or equivalently a post-encode bookkeeping exception with the
same message) is logged and skipped (`continue`), and success records
the rung (`successAcc`). -/
def rungLoop (jobId videoId : String) (total : Nat) (sched : Nat → RungObs) :
    Nat → List Resolution → RunAcc → RunAcc × Except String Unit
  | _, [], acc => (acc, .ok ())
  | i, r :: rest, acc =>
    let o := sched i
    if o.cancelledBefore then (acc, .error "CANCELLED")
    else
      match o.fatal with
      | some m => (acc, .error m)
      | none =>
        let acc1 := encodeStepAcc jobId total i o r rest acc
        match encodeToHLSResult true o with
        | .error msg =>
            if msg = "CANCELLED" then (acc1, .error "CANCELLED")
            else rungLoop jobId videoId total sched (i + 1) rest acc1
        | .ok _ => rungLoop jobId videoId total sched (i + 1) rest (successAcc jobId videoId o r acc1)

/-- Terminal bookkeeping of `processEncodingJob`, applied to the rung
loop's outcome.  On normal loop exit: if at least one rung completed,
write `master.m3u8` over the completed rungs and insert the `auto` source
row (the `INSERT OR REPLACE` is a plain insert — the table has no unique
key besides its autoincrement id); mark the job `completed` (progress
100, no current rung, empty pending, completion timestamp); delete the
uploaded input file; drop the handle.  On a thrown error: drop the handle
first; `CANCELLED` marks the job `cancelled` with the fixed message,
deletes the on-disk artifacts, the input file and all
`video_sources`/`subtitles`/`videos` rows of the video; any other error
marks the job `failed` with that message. -/
def finishJob (jobId videoId inputPath : String) (resolutions : List Resolution)
    (run : RunAcc × Except String Unit) : RunAcc × Except String Unit :=
  let acc := run.1
  match run.2 with
  | .ok _ =>
      let s1 :=
        if acc.completed.isEmpty then acc.sys
        else
          let completedRes := resolutions.filter (fun r => acc.completed.contains r.name)
          let withMaster := { acc.sys with masterFiles :=
            (fun v => if v = videoId then some (generateMasterPlaylistLines completedRes)
              else acc.sys.masterFiles v) }
          { withMaster with videoSources := withMaster.videoSources ++
              [{ videoId := videoId, resolution := "auto",
                 url := "/storage/videos/" ++ videoId ++ "/master.m3u8", fileSize := 0 }] }
      let s2 := updateJob jobId
        (fun j => { j with
          status := "completed"
          progress := 100
          currentResolution := none
          resolutionsPending := []
          completedAt := true }) s1
      let s3 := { s2 with inputFiles := fun p => if p = inputPath then false else s2.inputFiles p }
      ({ acc with sys := removeHandle jobId s3 }, run.2)
  | .error msg =>
      let s1 := removeHandle jobId acc.sys
      if msg = "CANCELLED" then
        let s2 := updateJob jobId
          (fun j => { j with status := "cancelled", error := some "Cancelled by user" }) s1
        let s3 := deleteVideoFiles videoId s2
        let s4 := { s3 with inputFiles := fun p => if p = inputPath then false else s3.inputFiles p }
        let s5 := { s4 with
          videoSources := s4.videoSources.filter (fun row => !(row.videoId == videoId))
          subtitles := s4.subtitles.filter (fun row => !(row.videoId == videoId))
          videos := fun v => if v = videoId then none else s4.videos v }
        ({ acc with sys := s5 }, run.2)
      else
        let s2 := updateJob jobId (fun j => { j with status := "failed", error := some msg }) s1
        ({ acc with sys := s2 }, run.2)

/-- The accumulator `processEncodingJob` starts its rung loop from: the
output directory created, the job set to `encoding` with progress 0 (the
first persisted progress value), nothing completed, nothing started. -/
def initialAcc (jobId videoId : String) (st : SysState) : RunAcc :=
  { sys := updateJob jobId (fun j => { j with status := "encoding", progress := 0 })
      { st with videoDirs := fun v => if v = videoId then true else st.videoDirs v }
    completed := []
    progressTrace := [0]
    startedTrace := [] }

/-- The whole of `processEncodingJob`: create the output directory, set
the job to `encoding`, run the sequential rung loop over the planned
resolutions, and perform the terminal bookkeeping (`finishJob`).
Returns the final accumulator and the rung loop's outcome. -/
def processEncodingJob (jobId videoId inputPath : String) (resolutions : List Resolution)
    (sched : Nat → RungObs) (st : SysState) : RunAcc × Except String Unit :=
  finishJob jobId videoId inputPath resolutions
    (rungLoop jobId videoId resolutions.length sched 0 resolutions (initialAcc jobId videoId st))

/-- Result of probing the input file with ffprobe
(`getVideoInfo`): dimensions and duration. -/
structure VideoInfo where
  width : Nat
  height : Nat
  duration : Rat
deriving Repr, DecidableEq

/-- A subtitle discovered by `extractSubtitles` or
`findExternalSubtitles`. -/
structure SubtitleEntry where
  label : String
  language : String
  url : String
  isDefault : Bool
deriving Repr, DecidableEq

/-- The subtitle rows inserted by `startEncodingJob`: the source folds
over the discovered subtitles keeping a `hasDefault` flag so that only
the first subtitle marked default is stored as default. -/
def subtitleRows (videoId : String) (subs : List SubtitleEntry) : List SubtitleRow :=
  (subs.foldl
    (fun (p : Bool × List SubtitleRow) sub =>
      let isDef := !p.1 && sub.isDefault
      (p.1 || isDef,
        p.2 ++ [{ videoId := videoId, label := sub.label, language := sub.language,
                  url := sub.url, isDefault := isDef }]))
    (false, [])).2

/-- The synchronous part of `startEncodingJob(videoId, inputPath)`,
before the detached `processEncodingJob` task is spawned.  The oracle
supplies the ffprobe outcome, the thumbnail URL (`generateThumbnail`
never rejects; it resolves the empty string on failure) and the
discovered subtitles.  In source order: reject if the input file does not
exist; probe (propagating probe failure); persist the video duration;
persist the thumbnail if one was produced; insert the subtitle rows if
any were found; plan the ladder, rejecting with the source-too-low error
when it is empty; insert the `pending` job row; register the
`activeEncodings` handle (flag clear); and return the job id.  (`jobId`,
a fresh `nanoid(12)`, is an oracle parameter; the background task is run
separately by the caller.) -/
def startEncodingJob (jobId videoId inputPath : String) (probe : Except String VideoInfo)
    (thumbnailUrl : String) (embedded external : List SubtitleEntry) (st : SysState) :
    SysState × Except String String :=
  if st.inputFiles inputPath then
    match probe with
    | .error e => (st, .error e)
    | .ok info =>
      let s1 := { st with videos :=
        (fun v => if v = videoId then (st.videos v).map (fun row => { row with duration := some info.duration })
          else st.videos v) }
      let s2 :=
        if thumbnailUrl = "" then s1
        else
          let sA := { s1 with thumbFiles := fun v => if v = videoId then true else s1.thumbFiles v }
          { sA with videos :=
            (fun v => if v = videoId then (sA.videos v).map (fun row => { row with thumbnail := some thumbnailUrl })
              else sA.videos v) }
      let allSubs := embedded ++ external
      let s3 :=
        if allSubs.isEmpty then s2
        else { s2 with subtitles := s2.subtitles ++ subtitleRows videoId allSubs }
      let targets := getTargetResolutions info.height
      if targets.isEmpty then (s3, .error "Source video resolution too low")
      else
        let s4 := { s3 with jobs :=
          (fun k => if k = jobId then some (initialJobRecord videoId (targets.map Resolution.name))
            else s3.jobs k) }
        (setHandle jobId { videoId := videoId, cancelled := false } s4, .ok jobId)
  else (st, .error ("Input video file not found: " ++ inputPath))

/-- Whether the rung loop's encode call for this observation resolves
successfully. -/
def rungOk (o : RungObs) : Bool :=
  match encodeToHLSResult true o with
  | .ok _ => true
  | .error _ => false

/-- Whether the rung loop's encode call for this observation rejects with
the distinguished cancellation error. -/
def rungRaisesCancel (o : RungObs) : Bool :=
  match encodeToHLSResult true o with
  | .ok _ => false
  | .error msg => msg == "CANCELLED"

/-- Whether the rung loop's encode call for this observation rejects with
a non-cancellation error (the rung is then skipped). -/
def rungFailsNonCancel (o : RungObs) : Bool :=
  match encodeToHLSResult true o with
  | .ok _ => false
  | .error msg => !(msg == "CANCELLED")

/-- Specification-side description of the rungs whose encode succeeds,
in ladder order, for a given schedule starting at rung index `i`. -/
def okNamesFrom (sched : Nat → RungObs) : Nat → List Resolution → List String
  | _, [] => []
  | i, r :: rest =>
      if rungOk (sched i) then r.name :: okNamesFrom sched (i + 1) rest
      else okNamesFrom sched (i + 1) rest

/-- Specification-side predicate for the cancellation contract of
`encodeToHLS`: some subprocess attempt that was actually executed
terminated abnormally while the job's cancellation flag was set (the
retry attempt only executes when a hardware attempt failed without the
flag set). -/
def flagSetAtAbnormalTermination (useGPU : Bool) (o : RungObs) : Bool :=
  match o.first.exit with
  | .normal => false
  | .abnormal _ =>
      if o.first.cancelledAtExit then true
      else if useGPU && o.gpuAvailable then
        match o.retry.exit with
        | .normal => false
        | .abnormal _ => o.retry.cancelledAtExit
      else false

/-- An attempt's abnormal-exit message, if abnormal, is not the literal
cancellation sentinel `CANCELLED` (true of every real ffmpeg error
message; the in-band sentinel is only sound under this proviso). -/
def exitMsgNotSentinel (e : ExitKind) : Bool :=
  match e with
  | .normal => true
  | .abnormal m => !(m == "CANCELLED")

/-- Build a schedule from a finite list of rung observations (rungs past
the end of the list report an uneventful success). -/
def schedOf (l : List RungObs) : Nat → RungObs :=
  fun i => l.getD i
    { cancelledBefore := false, gpuAvailable := false
      first := { ticks := [], exit := .normal, cancelledAtExit := false }
      retry := { ticks := [], exit := .normal, cancelledAtExit := false }
      segSize := 0, fatal := none }

/-- A concrete system state used to instantiate the theorems: one video
row `v1`, its uploaded input `in.mp4`, a registered `pending` job `job1`
planned over the single-rung ladder of a height-400 source, and its
active handle. -/
def exState : SysState :=
  { videos := fun v => if v = "v1" then some { duration := none, thumbnail := none } else none
    videoSources := []
    subtitles := []
    jobs := fun k => if k = "job1" then some (initialJobRecord "v1" ["360p"]) else none
    activeEncodings := [("job1", { videoId := "v1", cancelled := false })]
    inputFiles := fun p => p == "in.mp4"
    videoDirs := fun _ => false
    thumbFiles := fun _ => false
    masterFiles := fun _ => none }

/-- A normally-terminating attempt with the given forwarded ticks. -/
def okAttempt (ticks : List Rat) : AttemptObs :=
  { ticks := ticks, exit := .normal, cancelledAtExit := false }

/-- An abnormally-terminating attempt (flag clear) with the given ticks
and message. -/
def failAttempt (ticks : List Rat) (msg : String) : AttemptObs :=
  { ticks := ticks, exit := .abnormal msg, cancelledAtExit := false }

/-- Observation of a rung whose hardware attempt reaches 50 percent and
then fails, after which the software retry starts over, reports
10 percent and succeeds — the hardware-fallback scenario. -/
def obsFallback : RungObs :=
  { cancelledBefore := false, gpuAvailable := true
    first := failAttempt [50] "nvenc exploded"
    retry := okAttempt [10, 99]
    segSize := 1000, fatal := none }

/-- Observation of a rung that succeeds directly on the single (software)
attempt. -/
def obsPlainOk (ticks : List Rat) : RungObs :=
  { cancelledBefore := false, gpuAvailable := false
    first := okAttempt ticks
    retry := okAttempt []
    segSize := 500, fatal := none }

/-- Observation of a rung whose single software attempt fails (flag
clear). -/
def obsPlainFail (msg : String) : RungObs :=
  { cancelledBefore := false, gpuAvailable := false
    first := failAttempt [] msg
    retry := okAttempt []
    segSize := 0, fatal := none }

/-- Observation of a rung at whose loop-head check the cancellation flag
is already set. -/
def obsCancelBefore : RungObs :=
  { cancelledBefore := true, gpuAvailable := false
    first := okAttempt []
    retry := okAttempt []
    segSize := 0, fatal := none }

/-- Observation of a rung whose subprocess is killed after cancellation:
the error event fires with the flag set. -/
def obsCancelDuring (ticks : List Rat) : RungObs :=
  { cancelledBefore := false, gpuAvailable := false
    first := { ticks := ticks, exit := .abnormal "killed", cancelledAtExit := true }
    retry := okAttempt []
    segSize := 0, fatal := none }

/-- Observation of a rung whose rung-start UPDATE statement throws (a
database failure outside the inner try), which aborts the whole job. -/
def obsDbFail (msg : String) : RungObs :=
  { cancelledBefore := false, gpuAvailable := false
    first := okAttempt []
    retry := okAttempt []
    segSize := 0, fatal := some msg }

instance : IsTotal Resolution heightLe := ⟨fun a b => Nat.le_total a.height b.height⟩

instance : IsTrans Resolution heightLe := ⟨fun _ _ _ => Nat.le_trans⟩

lemma foldl_pushTwo (f g : Resolution → String) :
    ∀ (l : List Resolution) (init : List String),
      l.foldl (fun lines r => lines ++ [f r, g r]) init =
        init ++ (l.map (fun r => [f r, g r])).flatten := by
  intro l
  induction l with
  | nil => intro init; simp
  | cons r rest ih => intro init; simp [ih, List.append_assoc]

lemma generateMasterPlaylistLines_eq_spec (rs : List Resolution) :
    generateMasterPlaylistLines rs = masterPlaylistSpecLines rs := by
  unfold generateMasterPlaylistLines masterPlaylistSpecLines
  rw [foldl_pushTwo]

lemma sortByHeight_perm (rs : List Resolution) : (sortByHeight rs).Perm rs :=
  List.perm_insertionSort heightLe rs

lemma sortByHeight_sorted (rs : List Resolution) :
    List.Pairwise heightLe (sortByHeight rs) :=
  List.sorted_insertionSort heightLe rs

lemma sortByHeight_eq_of_perm (rs1 rs2 : List Resolution)
    (hp : rs1.Perm rs2) (hnd : (rs1.map Resolution.height).Nodup) :
    sortByHeight rs1 = sortByHeight rs2 := by
  haveI : IsAntisymm Resolution (fun a b => a.height < b.height) :=
    ⟨fun _ _ h1 h2 => absurd (h1.trans h2) (lt_irrefl _)⟩
  have hperm : (sortByHeight rs1).Perm (sortByHeight rs2) :=
    ((sortByHeight_perm rs1).trans hp).trans (sortByHeight_perm rs2).symm
  have hstrict : ∀ (l : List Resolution), l.Perm rs1 → List.Pairwise heightLe (sortByHeight l) →
      List.Pairwise (fun a b => a.height < b.height) (sortByHeight l) := by
    intro l hl hs
    have hnd' : ((sortByHeight l).map Resolution.height).Nodup := by
      have : ((sortByHeight l).map Resolution.height).Perm (rs1.map Resolution.height) :=
        List.Perm.map _ ((sortByHeight_perm l).trans hl)
      exact this.nodup_iff.mpr hnd
    have hne : List.Pairwise (fun a b : Resolution => a.height ≠ b.height) (sortByHeight l) :=
      List.pairwise_map.mp hnd'
    exact (hs.and hne).imp (fun h => lt_of_le_of_ne h.1 h.2)
  exact List.eq_of_perm_of_sorted hperm
    (hstrict rs1 (List.Perm.refl rs1) (sortByHeight_sorted rs1))
    (hstrict rs2 hp.symm (sortByHeight_sorted rs2))

/-- C9.  The master playlist generator writes `master.m3u8` consisting of
the header lines `#EXTM3U` and `#EXT-X-VERSION:3` followed, for each
completed rung sorted ascending by height independent of completion
order, by a `#EXT-X-STREAM-INF` line carrying BANDWIDTH equal to the
rung's bitrate times 1000, RESOLUTION equal to the rung's width x height,
NAME equal to the rung name, and then a line with that rung's playlist
filename.  Stated as: the translated generator equals the
specification-shaped description over the height-sorted rungs, whose
order is ascending by height; the output is invariant under permutations
of the completed set (with the ladder's distinct heights); and on the
concrete out-of-order completion set 720p-then-360p the emitted lines are
exactly the specified ones. -/
theorem claim_C9_master_playlist (rs1 rs2 : List Resolution)
    (hp : rs1.Perm rs2) (hnd : (rs1.map Resolution.height).Nodup) :
    (∀ rs, generateMasterPlaylistLines rs = masterPlaylistSpecLines rs) ∧
    (∀ rs, List.Pairwise heightLe (sortByHeight rs)) ∧
    generateMasterPlaylistLines rs1 = generateMasterPlaylistLines rs2 ∧
    generateMasterPlaylistLines
        [{ name := "720p", width := 1280, height := 720, bitrate := "2500k", audioBitrate := "128k" },
         { name := "360p", width := 640, height := 360, bitrate := "600k", audioBitrate := "96k" }] =
      ["#EXTM3U", "#EXT-X-VERSION:3",
       "#EXT-X-STREAM-INF:BANDWIDTH=600000,RESOLUTION=640x360,NAME=\"360p\"", "360p.m3u8",
       "#EXT-X-STREAM-INF:BANDWIDTH=2500000,RESOLUTION=1280x720,NAME=\"720p\"", "720p.m3u8"] := by
  refine ⟨generateMasterPlaylistLines_eq_spec, sortByHeight_sorted, ?_, by decide⟩
  rw [generateMasterPlaylistLines_eq_spec, generateMasterPlaylistLines_eq_spec]
  unfold masterPlaylistSpecLines
  rw [sortByHeight_eq_of_perm rs1 rs2 hp hnd]

/-- Witness for C9 at a concrete input: the two orders of the completed
pair 360p/720p produce identical master playlists. -/
theorem claim_C9_master_playlist_witness :
    generateMasterPlaylistLines
        [{ name := "360p", width := 640, height := 360, bitrate := "600k", audioBitrate := "96k" },
         { name := "720p", width := 1280, height := 720, bitrate := "2500k", audioBitrate := "128k" }] =
      generateMasterPlaylistLines
        [{ name := "720p", width := 1280, height := 720, bitrate := "2500k", audioBitrate := "128k" },
         { name := "360p", width := 640, height := 360, bitrate := "600k", audioBitrate := "96k" }] :=
  (claim_C9_master_playlist _ _ (by decide) (by decide)).2.2.1

lemma updateJob_jobs_self (jid : String) (f : JobRecord → JobRecord) (st : SysState) :
    (updateJob jid f st).jobs jid = (st.jobs jid).map f := by
  simp [updateJob]

/-- The components of the state that the rung loop never writes,
bundled so that frame reasoning is a single equation. -/
def sysFrame (s : SysState) :=
  (s.activeEncodings, s.inputFiles, s.videoDirs, s.thumbFiles, s.masterFiles, s.videos, s.subtitles)

lemma applyTickWrites_sysFrame (jid : String) : ∀ (ws : List Rat) (st : SysState),
    sysFrame (applyTickWrites jid ws st) = sysFrame st := by
  intro ws
  induction ws with
  | nil => intro st; rfl
  | cons w ws ih =>
      intro st
      have h := ih (updateJob jid (fun j => { j with progress := w, status := "encoding" }) st)
      simpa [applyTickWrites] using h

lemma applyTickWrites_videoSources (jid : String) : ∀ (ws : List Rat) (st : SysState),
    (applyTickWrites jid ws st).videoSources = st.videoSources := by
  intro ws
  induction ws with
  | nil => intro st; rfl
  | cons w ws ih =>
      intro st
      have h := ih (updateJob jid (fun j => { j with progress := w, status := "encoding" }) st)
      simpa [applyTickWrites] using h

lemma applyTickWrites_jobs_track (jid : String) : ∀ (ws : List Rat) (st : SysState)
    (jr : JobRecord), st.jobs jid = some jr →
    ∃ jr', (applyTickWrites jid ws st).jobs jid = some jr' ∧
      jr'.videoId = jr.videoId ∧ jr'.currentResolution = jr.currentResolution ∧
      jr'.resolutionsCompleted = jr.resolutionsCompleted ∧
      jr'.resolutionsPending = jr.resolutionsPending ∧
      jr'.completedAt = jr.completedAt ∧ jr'.error = jr.error := by
  intro ws
  induction ws with
  | nil =>
      intro st jr h
      exact ⟨jr, h, rfl, rfl, rfl, rfl, rfl, rfl⟩
  | cons w ws ih =>
      intro st jr h
      have hstep : (updateJob jid (fun j => { j with progress := w, status := "encoding" }) st).jobs jid
          = some { jr with progress := w, status := "encoding" } := by
        rw [updateJob_jobs_self, h]; rfl
      obtain ⟨jr', hjr', h1, h2, h3, h4, h5, h6⟩ := ih _ _ hstep
      refine ⟨jr', ?_, h1, h2, h3, h4, h5, h6⟩
      simpa [applyTickWrites] using hjr'

lemma encodeStepAcc_sysFrame (jid : String) (total i : Nat) (o : RungObs) (r : Resolution)
    (rest : List Resolution) (acc : RunAcc) :
    sysFrame (encodeStepAcc jid total i o r rest acc).sys = sysFrame acc.sys := by
  unfold encodeStepAcc
  exact applyTickWrites_sysFrame jid _ _

lemma successAcc_sysFrame (jid vid : String) (o : RungObs) (r : Resolution) (acc1 : RunAcc) :
    sysFrame (successAcc jid vid o r acc1).sys = sysFrame acc1.sys := rfl

lemma rungLoop_sysFrame (jid vid : String) (total : Nat) (sched : Nat → RungObs) :
    ∀ (rs : List Resolution) (i : Nat) (acc : RunAcc),
      sysFrame ((rungLoop jid vid total sched i rs acc).1).sys = sysFrame acc.sys := by
  intro rs
  induction rs with
  | nil => intro i acc; rfl
  | cons r rest ih =>
      intro i acc
      by_cases hc : (sched i).cancelledBefore
      · simp [rungLoop, hc]
      · rcases hfat : (sched i).fatal with _ | m
        · rcases hres : encodeToHLSResult true (sched i) with msg | u
          · by_cases hm : msg = "CANCELLED"
            · simp only [rungLoop, hfat, hres, hm]
              simp [hc]
              exact encodeStepAcc_sysFrame jid total i (sched i) r rest acc
            · simp only [rungLoop, hfat, hres]
              simp [hc, hm]
              exact (ih (i + 1) _).trans (encodeStepAcc_sysFrame jid total i (sched i) r rest acc)
          · simp only [rungLoop, hfat, hres]
            simp [hc]
            exact ((ih (i + 1) _).trans (successAcc_sysFrame jid vid (sched i) r _)).trans
              (encodeStepAcc_sysFrame jid total i (sched i) r rest acc)
        · simp [rungLoop, hc, hfat]

lemma sysFrame_eq_activeEncodings {a b : SysState} (h : sysFrame a = sysFrame b) :
    a.activeEncodings = b.activeEncodings := congrArg Prod.fst h

lemma sysFrame_eq_inputFiles {a b : SysState} (h : sysFrame a = sysFrame b) :
    a.inputFiles = b.inputFiles := congrArg (fun t => t.2.1) h

lemma sysFrame_eq_videoDirs {a b : SysState} (h : sysFrame a = sysFrame b) :
    a.videoDirs = b.videoDirs := congrArg (fun t => t.2.2.1) h

lemma sysFrame_eq_thumbFiles {a b : SysState} (h : sysFrame a = sysFrame b) :
    a.thumbFiles = b.thumbFiles := congrArg (fun t => t.2.2.2.1) h

lemma sysFrame_eq_masterFiles {a b : SysState} (h : sysFrame a = sysFrame b) :
    a.masterFiles = b.masterFiles := congrArg (fun t => t.2.2.2.2.1) h

lemma sysFrame_eq_videos {a b : SysState} (h : sysFrame a = sysFrame b) :
    a.videos = b.videos := congrArg (fun t => t.2.2.2.2.2.1) h

lemma sysFrame_eq_subtitles {a b : SysState} (h : sysFrame a = sysFrame b) :
    a.subtitles = b.subtitles := congrArg (fun t => t.2.2.2.2.2.2) h

lemma encodeStepAcc_videoSources (jid : String) (total i : Nat) (o : RungObs) (r : Resolution)
    (rest : List Resolution) (acc : RunAcc) :
    (encodeStepAcc jid total i o r rest acc).sys.videoSources = acc.sys.videoSources := by
  unfold encodeStepAcc
  exact applyTickWrites_videoSources jid _ _

lemma rungLoop_sources_mono (jid vid : String) (total : Nat) (sched : Nat → RungObs) :
    ∀ (rs : List Resolution) (i : Nat) (acc : RunAcc) (row : SourceRow),
      row ∈ acc.sys.videoSources →
      row ∈ ((rungLoop jid vid total sched i rs acc).1).sys.videoSources := by
  intro rs
  induction rs with
  | nil => intro i acc row h; exact h
  | cons r rest ih =>
      intro i acc row h
      have hstep : row ∈ (encodeStepAcc jid total i (sched i) r rest acc).sys.videoSources := by
        rw [encodeStepAcc_videoSources]; exact h
      by_cases hc : (sched i).cancelledBefore
      · simpa [rungLoop, hc] using h
      · rcases hfat : (sched i).fatal with _ | m
        · rcases hres : encodeToHLSResult true (sched i) with msg | u
          · by_cases hm : msg = "CANCELLED"
            · simp only [rungLoop, hfat, hres, hm]
              simpa [hc] using hstep
            · simp only [rungLoop, hfat, hres]
              simp [hc, hm]
              exact ih (i + 1) _ row hstep
          · simp only [rungLoop, hfat, hres]
            simp [hc]
            exact ih (i + 1) _ row (List.mem_append.mpr (Or.inl hstep))
        · simpa [rungLoop, hc, hfat] using h

lemma rungLoop_startedTrace (jid vid : String) (total : Nat) (sched : Nat → RungObs) :
    ∀ (rs : List Resolution) (i : Nat) (acc : RunAcc),
      ∃ k, ((rungLoop jid vid total sched i rs acc).1).startedTrace =
        acc.startedTrace ++ (rs.map Resolution.name).take k := by
  intro rs
  induction rs with
  | nil => intro i acc; exact ⟨0, by simp [rungLoop]⟩
  | cons r rest ih =>
      intro i acc
      by_cases hc : (sched i).cancelledBefore
      · exact ⟨0, by simp [rungLoop, hc]⟩
      · have hone : (encodeStepAcc jid total i (sched i) r rest acc).startedTrace =
            acc.startedTrace ++ ((r :: rest).map Resolution.name).take 1 := by
          simp [encodeStepAcc]
        rcases hfat : (sched i).fatal with _ | m
        · rcases hres : encodeToHLSResult true (sched i) with msg | u
          · by_cases hm : msg = "CANCELLED"
            · refine ⟨1, ?_⟩
              simp only [rungLoop, hfat, hres, hm]
              simpa [hc] using hone
            · obtain ⟨k, hk⟩ := ih (i + 1) (encodeStepAcc jid total i (sched i) r rest acc)
              refine ⟨k + 1, ?_⟩
              simp only [rungLoop, hfat, hres]
              simp [hc, hm]
              rw [hk]
              simp [encodeStepAcc]
          · obtain ⟨k, hk⟩ := ih (i + 1)
              (successAcc jid vid (sched i) r (encodeStepAcc jid total i (sched i) r rest acc))
            refine ⟨k + 1, ?_⟩
            simp only [rungLoop, hfat, hres]
            simp [hc]
            rw [hk]
            simp [successAcc, encodeStepAcc]
        · exact ⟨0, by simp [rungLoop, hc, hfat]⟩

lemma rungLoop_completed_sublist (jid vid : String) (total : Nat) (sched : Nat → RungObs) :
    ∀ (rs : List Resolution) (i : Nat) (acc : RunAcc),
      ∃ l, ((rungLoop jid vid total sched i rs acc).1).completed = acc.completed ++ l ∧
        l.Sublist (rs.map Resolution.name) := by
  intro rs
  induction rs with
  | nil => intro i acc; exact ⟨[], by simp [rungLoop], List.nil_sublist _⟩
  | cons r rest ih =>
      intro i acc
      by_cases hc : (sched i).cancelledBefore
      · exact ⟨[], by simp [rungLoop, hc], List.nil_sublist _⟩
      · rcases hfat : (sched i).fatal with _ | m
        · rcases hres : encodeToHLSResult true (sched i) with msg | u
          · by_cases hm : msg = "CANCELLED"
            · refine ⟨[], ?_, List.nil_sublist _⟩
              simp only [rungLoop, hfat, hres, hm]
              simp [hc, encodeStepAcc]
            · obtain ⟨l, hl, hsub⟩ := ih (i + 1) (encodeStepAcc jid total i (sched i) r rest acc)
              refine ⟨l, ?_, hsub.cons r.name⟩
              simp only [rungLoop, hfat, hres]
              simp [hc, hm]
              rw [hl]
              simp [encodeStepAcc]
          · obtain ⟨l, hl, hsub⟩ := ih (i + 1)
              (successAcc jid vid (sched i) r (encodeStepAcc jid total i (sched i) r rest acc))
            refine ⟨r.name :: l, ?_, hsub.cons₂ r.name⟩
            simp only [rungLoop, hfat, hres]
            simp [hc]
            rw [hl]
            simp [successAcc, encodeStepAcc]
        · exact ⟨[], by simp [rungLoop, hc, hfat], List.nil_sublist _⟩

lemma applyTickWrites_jobs_isSome (jid : String) (ws : List Rat) (st : SysState)
    (h : (st.jobs jid).isSome) : ((applyTickWrites jid ws st).jobs jid).isSome := by
  obtain ⟨jr, hjr⟩ := Option.isSome_iff_exists.mp h
  obtain ⟨jr', hjr', -⟩ := applyTickWrites_jobs_track jid ws st jr hjr
  simp [hjr']

lemma encodeStepAcc_jobs_track (jid : String) (total i : Nat) (o : RungObs) (r : Resolution)
    (rest : List Resolution) (acc : RunAcc) (jr : JobRecord)
    (h : acc.sys.jobs jid = some jr) :
    ∃ jr', (encodeStepAcc jid total i o r rest acc).sys.jobs jid = some jr' ∧
      jr'.resolutionsCompleted = jr.resolutionsCompleted ∧
      jr'.videoId = jr.videoId ∧ jr'.error = jr.error := by
  unfold encodeStepAcc
  have hstep : (updateJob jid
      (fun j => { j with
        currentResolution := some r.name
        resolutionsPending := (r :: rest).map Resolution.name
        progress := ((i : Rat) / (total : Rat)) * 100 }) acc.sys).jobs jid
      = some { jr with
        currentResolution := some r.name
        resolutionsPending := (r :: rest).map Resolution.name
        progress := ((i : Rat) / (total : Rat)) * 100 } := by
    rw [updateJob_jobs_self, h]; rfl
  obtain ⟨jr', hjr', h1, h2, h3, h4, h5, h6⟩ := applyTickWrites_jobs_track jid _ _ _ hstep
  exact ⟨jr', hjr', h3, h1, h6⟩

lemma successAcc_jobs (jid vid : String) (o : RungObs) (r : Resolution) (acc1 : RunAcc)
    (jr : JobRecord) (h : acc1.sys.jobs jid = some jr) :
    (successAcc jid vid o r acc1).sys.jobs jid =
      some { jr with resolutionsCompleted := acc1.completed ++ [r.name] } := by
  unfold successAcc
  rw [updateJob_jobs_self]
  have : ({ acc1.sys with videoSources := acc1.sys.videoSources ++
      [{ videoId := vid, resolution := r.name,
         url := sourceUrl vid r.name, fileSize := o.segSize }] } : SysState).jobs jid = some jr := h
  rw [this]
  rfl

lemma rungLoop_record_completed (jid vid : String) (total : Nat) (sched : Nat → RungObs) :
    ∀ (rs : List Resolution) (i : Nat) (acc : RunAcc) (jr : JobRecord),
      acc.sys.jobs jid = some jr → jr.resolutionsCompleted = acc.completed →
      ∃ jr', ((rungLoop jid vid total sched i rs acc).1).sys.jobs jid = some jr' ∧
        jr'.resolutionsCompleted = ((rungLoop jid vid total sched i rs acc).1).completed ∧
        jr'.videoId = jr.videoId := by
  intro rs
  induction rs with
  | nil =>
      intro i acc jr h hsync
      exact ⟨jr, by simpa [rungLoop] using h, by simpa [rungLoop] using hsync, rfl⟩
  | cons r rest ih =>
      intro i acc jr h hsync
      by_cases hc : (sched i).cancelledBefore
      · exact ⟨jr, by simpa [rungLoop, hc] using h, by simpa [rungLoop, hc] using hsync, rfl⟩
      · rcases hfat : (sched i).fatal with _ | m
        · obtain ⟨jr1, hjr1, hcomp1, hvid1, _⟩ :=
            encodeStepAcc_jobs_track jid total i (sched i) r rest acc jr h
          have hsync1 : jr1.resolutionsCompleted = (encodeStepAcc jid total i (sched i) r rest acc).completed := by
            rw [hcomp1, hsync]; rfl
          rcases hres : encodeToHLSResult true (sched i) with msg | u
          · by_cases hm : msg = "CANCELLED"
            · refine ⟨jr1, ?_, ?_, hvid1⟩
              · simp only [rungLoop, hfat, hres, hm]; simpa [hc] using hjr1
              · simp only [rungLoop, hfat, hres, hm]; simpa [hc] using hsync1
            · obtain ⟨jr', hjr', hcomp', hvid'⟩ := ih (i + 1) _ jr1 hjr1 hsync1
              refine ⟨jr', ?_, ?_, hvid'.trans hvid1⟩
              · simp only [rungLoop, hfat, hres]; simpa [hc, hm] using hjr'
              · simp only [rungLoop, hfat, hres]; simpa [hc, hm] using hcomp'
          · have hsucc := successAcc_jobs jid vid (sched i) r _ jr1 hjr1
            have hsync2 : ({ jr1 with resolutionsCompleted :=
                (encodeStepAcc jid total i (sched i) r rest acc).completed ++ [r.name] } : JobRecord).resolutionsCompleted =
                (successAcc jid vid (sched i) r (encodeStepAcc jid total i (sched i) r rest acc)).completed := by
              rfl
            obtain ⟨jr', hjr', hcomp', hvid'⟩ := ih (i + 1) _ _ hsucc hsync2
            refine ⟨jr', ?_, ?_, by simpa using hvid'.trans hvid1⟩
            · simp only [rungLoop, hfat, hres]; simpa [hc] using hjr'
            · simp only [rungLoop, hfat, hres]; simpa [hc] using hcomp'
        · exact ⟨jr, by simpa [rungLoop, hc, hfat] using h, by simpa [rungLoop, hc, hfat] using hsync, rfl⟩

lemma rungLoop_jobs_isSome (jid vid : String) (total : Nat) (sched : Nat → RungObs) :
    ∀ (rs : List Resolution) (i : Nat) (acc : RunAcc),
      (acc.sys.jobs jid).isSome →
      (((rungLoop jid vid total sched i rs acc).1).sys.jobs jid).isSome := by
  intro rs
  induction rs with
  | nil => intro i acc h; simpa [rungLoop] using h
  | cons r rest ih =>
      intro i acc h
      obtain ⟨jr, hjr⟩ := Option.isSome_iff_exists.mp h
      obtain ⟨jr1, hjr1, -, -, -⟩ := encodeStepAcc_jobs_track jid total i (sched i) r rest acc jr hjr
      have h1 : ((encodeStepAcc jid total i (sched i) r rest acc).sys.jobs jid).isSome := by simp [hjr1]
      by_cases hc : (sched i).cancelledBefore
      · simpa [rungLoop, hc] using h
      · rcases hfat : (sched i).fatal with _ | m
        · rcases hres : encodeToHLSResult true (sched i) with msg | u
          · by_cases hm : msg = "CANCELLED"
            · simp only [rungLoop, hfat, hres, hm]; simpa [hc] using h1
            · simp only [rungLoop, hfat, hres]
              simp [hc, hm]
              exact ih (i + 1) _ h1
          · simp only [rungLoop, hfat, hres]
            simp [hc]
            refine ih (i + 1) _ ?_
            rw [successAcc_jobs jid vid (sched i) r _ jr1 hjr1]
            rfl
        · simpa [rungLoop, hc, hfat] using h

lemma find?_key_filter_ne (jid : String) (l : List (String × Handle)) :
    List.find? (fun p => p.1 == jid) (l.filter (fun p => !(p.1 == jid))) = none := by
  rw [List.find?_eq_none]
  intro x hx
  have := (List.mem_filter.mp hx).2
  simp at this
  simp [this]

lemma lookupHandle_remove (jid : String) (st : SysState) :
    lookupHandle (removeHandle jid st) jid = none := by
  unfold lookupHandle removeHandle
  rw [find?_key_filter_ne]
  rfl

lemma find?_map_setKey (jid : String) (h : Handle) : ∀ (l : List (String × Handle)),
    List.find? (fun p => p.1 == jid) (l.map (fun p => if p.1 == jid then (p.1, h) else p)) =
      (List.find? (fun p => p.1 == jid) l).map (fun p => (p.1, h)) := by
  intro l
  induction l with
  | nil => rfl
  | cons p l ih =>
      by_cases hp : p.1 == jid
      · simp [List.find?, hp]
      · simp only [List.map_cons]
        rw [List.find?_cons_of_neg, List.find?_cons_of_neg]
        · exact ih
        · simpa using hp
        · simp [hp]

lemma lookupHandle_setHandle (jid : String) (h : Handle) (st : SysState) :
    lookupHandle (setHandle jid h st) jid = some h := by
  unfold lookupHandle setHandle
  by_cases hin : st.activeEncodings.any (fun p => p.1 == jid)
  · rw [if_pos hin, find?_map_setKey]
    have : (List.find? (fun p => p.1 == jid) st.activeEncodings).isSome := by
      rw [List.find?_isSome]
      obtain ⟨x, hx, hpx⟩ := List.any_eq_true.mp hin
      exact ⟨x, hx, hpx⟩
    obtain ⟨p, hp⟩ := Option.isSome_iff_exists.mp this
    simp [hp]
  · rw [if_neg hin, List.find?_append]
    have hnone : List.find? (fun p => p.1 == jid) st.activeEncodings = none := by
      rw [List.find?_eq_none]
      intro x hx hpx
      exact absurd (List.any_eq_true.mpr ⟨x, hx, hpx⟩) hin
    simp [hnone, List.find?]

lemma finishJob_activeEncodings (jid vid ip : String) (rs : List Resolution)
    (acc : RunAcc) (res : Except String Unit) :
    ((finishJob jid vid ip rs (acc, res)).1).sys.activeEncodings =
      (removeHandle jid acc.sys).activeEncodings := by
  rcases res with msg | u
  · by_cases hm : msg = "CANCELLED"
    · simp [finishJob, hm, removeHandle, deleteVideoFiles, updateJob]
    · simp [finishJob, hm, removeHandle, updateJob]
  · by_cases hemp : acc.completed.isEmpty
    · simp [finishJob, hemp, removeHandle, updateJob]
    · simp [finishJob, hemp, removeHandle, updateJob]

lemma processEncodingJob_activeEncodings (jid vid ip : String) (rs : List Resolution)
    (sched : Nat → RungObs) (st : SysState) :
    ((processEncodingJob jid vid ip rs sched st).1).sys.activeEncodings =
      st.activeEncodings.filter (fun p => !(p.1 == jid)) := by
  unfold processEncodingJob
  rcases hrun : rungLoop jid vid rs.length sched 0 rs (initialAcc jid vid st) with ⟨acc, res⟩
  rw [finishJob_activeEncodings]
  have hframe := sysFrame_eq_activeEncodings
    (by rw [hrun] : sysFrame ((rungLoop jid vid rs.length sched 0 rs (initialAcc jid vid st)).1).sys
        = sysFrame acc.sys)
  have hloop := sysFrame_eq_activeEncodings
    (rungLoop_sysFrame jid vid rs.length sched rs 0 (initialAcc jid vid st))
  rw [hrun] at hloop
  unfold removeHandle
  rw [hloop]
  rfl

lemma finishJob_status (jid vid ip : String) (rs : List Resolution)
    (acc : RunAcc) (res : Except String Unit) (jr : JobRecord)
    (h : acc.sys.jobs jid = some jr) :
    ∃ jr', ((finishJob jid vid ip rs (acc, res)).1).sys.jobs jid = some jr' ∧
      (jr'.status = "completed" ∨ jr'.status = "cancelled" ∨ jr'.status = "failed") := by
  rcases res with msg | u
  · by_cases hm : msg = "CANCELLED"
    · refine ⟨{ jr with status := "cancelled", error := some "Cancelled by user" }, ?_,
        Or.inr (Or.inl rfl)⟩
      have h' : (removeHandle jid acc.sys).jobs jid = some jr := h
      simp [finishJob, hm, deleteVideoFiles, updateJob, h']
    · refine ⟨{ jr with status := "failed", error := some msg }, ?_, Or.inr (Or.inr rfl)⟩
      have h' : (removeHandle jid acc.sys).jobs jid = some jr := h
      simp [finishJob, hm, updateJob, h']
  · refine ⟨{ jr with status := "completed", progress := 100, currentResolution := none, resolutionsPending := [], completedAt := true }, ?_, Or.inl rfl⟩
    by_cases hemp : acc.completed.isEmpty
    · simp [finishJob, hemp, removeHandle, updateJob, h]
    · simp [finishJob, hemp, removeHandle, updateJob, h]

/-- C8.  A job's entry in the active-encodings registry exists only while
the job is queued or running and is removed the instant the job reaches
any terminal state: after `startEncodingJob` succeeds the handle is
registered (flag clear) alongside the `pending` job row, and after
`processEncodingJob` finishes — on every path — the job's handle is gone
while its persisted status is terminal (`completed`, `cancelled` or
`failed`); consequently `cancelEncoding` finds no handle, changes nothing
and returns `false`, and `getActiveJobForVideo` no longer reports that
job for any video. -/
theorem claim_C8_handle_lifecycle (jobId videoId inputPath : String)
    (resolutions : List Resolution) (sched : Nat → RungObs) (st : SysState)
    (j0 : JobRecord) (hj : st.jobs jobId = some j0) :
    lookupHandle ((processEncodingJob jobId videoId inputPath resolutions sched st).1).sys jobId = none ∧
    (cancelEncoding jobId ((processEncodingJob jobId videoId inputPath resolutions sched st).1).sys).2 = false ∧
    (cancelEncoding jobId ((processEncodingJob jobId videoId inputPath resolutions sched st).1).sys).1 =
      ((processEncodingJob jobId videoId inputPath resolutions sched st).1).sys ∧
    (∀ v, getActiveJobForVideo v ((processEncodingJob jobId videoId inputPath resolutions sched st).1).sys ≠ some jobId) ∧
    (∃ jr', ((processEncodingJob jobId videoId inputPath resolutions sched st).1).sys.jobs jobId = some jr' ∧
      (jr'.status = "completed" ∨ jr'.status = "cancelled" ∨ jr'.status = "failed")) ∧
    (∀ (probe : Except String VideoInfo) (thumb : String) (emb ext : List SubtitleEntry)
        (st2 : SysState) (jid2 : String),
      (startEncodingJob jobId videoId inputPath probe thumb emb ext st2).2 = .ok jid2 →
      lookupHandle (startEncodingJob jobId videoId inputPath probe thumb emb ext st2).1 jobId =
          some { videoId := videoId, cancelled := false } ∧
      ∃ pend, (startEncodingJob jobId videoId inputPath probe thumb emb ext st2).1.jobs jobId =
          some (initialJobRecord videoId pend)) := by
  have hae := processEncodingJob_activeEncodings jobId videoId inputPath resolutions sched st
  have hlook : lookupHandle ((processEncodingJob jobId videoId inputPath resolutions sched st).1).sys jobId = none := by
    unfold lookupHandle
    rw [hae, find?_key_filter_ne]
    rfl
  refine ⟨hlook, ?_, ?_, ?_, ?_, ?_⟩
  · simp [cancelEncoding, hlook]
  · simp [cancelEncoding, hlook]
  · intro v heq
    unfold getActiveJobForVideo at heq
    obtain ⟨p, hp, hp1⟩ := Option.map_eq_some.mp heq
    have hmem := List.mem_of_find?_eq_some hp
    rw [hae] at hmem
    have := (List.mem_filter.mp hmem).2
    rw [hp1] at this
    simp at this
  · rcases hrun : rungLoop jobId videoId resolutions.length sched 0 resolutions (initialAcc jobId videoId st)
      with ⟨acc, res⟩
    have hpe : processEncodingJob jobId videoId inputPath resolutions sched st =
        finishJob jobId videoId inputPath resolutions (acc, res) := by
      unfold processEncodingJob
      rw [hrun]
    have hinit : ((initialAcc jobId videoId st).sys.jobs jobId).isSome := by
      simp [initialAcc, updateJob, hj]
    have hsome := rungLoop_jobs_isSome jobId videoId resolutions.length sched resolutions 0 _ hinit
    rw [hrun] at hsome
    obtain ⟨jr, hjr⟩ := Option.isSome_iff_exists.mp hsome
    rw [hpe]
    exact finishJob_status jobId videoId inputPath resolutions acc res jr hjr
  · intro probe thumb emb ext st2 jid2 hok
    by_cases hin : st2.inputFiles inputPath = true
    · rcases probe with e | info
      · simp [startEncodingJob, hin] at hok
      · by_cases hemp : (getTargetResolutions info.height).isEmpty = true
        · simp [startEncodingJob, hin, hemp] at hok
        · refine ⟨?_, (getTargetResolutions info.height).map Resolution.name, ?_⟩
          · simp only [startEncodingJob, hin, if_true]
            simp [hemp]
            exact lookupHandle_setHandle jobId { videoId := videoId, cancelled := false } _
          · simp only [startEncodingJob, hin, if_true]
            simp [hemp, setHandle, updateJob]
    · simp [startEncodingJob, hin] at hok

/-- Witness for C8 at a concrete input: the example single-rung job run
to completion leaves no handle and an unsuccessful cancellation. -/
theorem claim_C8_handle_lifecycle_witness :
    exState.jobs "job1" = some (initialJobRecord "v1" ["360p"]) ∧
    lookupHandle ((processEncodingJob "job1" "v1" "in.mp4" (getTargetResolutions 400)
      (schedOf []) exState).1).sys "job1" = none ∧
    (cancelEncoding "job1" ((processEncodingJob "job1" "v1" "in.mp4" (getTargetResolutions 400)
      (schedOf []) exState).1).sys).2 = false :=
  ⟨rfl,
    (claim_C8_handle_lifecycle "job1" "v1" "in.mp4" (getTargetResolutions 400) (schedOf [])
      exState (initialJobRecord "v1" ["360p"]) rfl).1,
    (claim_C8_handle_lifecycle "job1" "v1" "in.mp4" (getTargetResolutions 400) (schedOf [])
      exState (initialJobRecord "v1" ["360p"]) rfl).2.1⟩

lemma finishJob_snd (jid vid ip : String) (rs : List Resolution) (acc : RunAcc)
    (res : Except String Unit) : (finishJob jid vid ip rs (acc, res)).2 = res := by
  rcases res with msg | u
  · by_cases hm : msg = "CANCELLED" <;> simp [finishJob, hm]
  · by_cases hemp : acc.completed.isEmpty <;> simp [finishJob, hemp]

lemma finishJob_cancel (jid vid ip : String) (rs : List Resolution) (acc : RunAcc)
    (jr : JobRecord) (h : acc.sys.jobs jid = some jr) :
    ((finishJob jid vid ip rs (acc, Except.error "CANCELLED")).1).sys.jobs jid =
        some { jr with status := "cancelled", error := some "Cancelled by user" } ∧
    ((finishJob jid vid ip rs (acc, Except.error "CANCELLED")).1).sys.videoDirs vid = false ∧
    ((finishJob jid vid ip rs (acc, Except.error "CANCELLED")).1).sys.thumbFiles vid = false ∧
    ((finishJob jid vid ip rs (acc, Except.error "CANCELLED")).1).sys.masterFiles vid = none ∧
    ((finishJob jid vid ip rs (acc, Except.error "CANCELLED")).1).sys.inputFiles ip = false ∧
    ((finishJob jid vid ip rs (acc, Except.error "CANCELLED")).1).sys.videos vid = none ∧
    (∀ row ∈ ((finishJob jid vid ip rs (acc, Except.error "CANCELLED")).1).sys.videoSources,
      row.videoId ≠ vid) ∧
    (∀ row ∈ ((finishJob jid vid ip rs (acc, Except.error "CANCELLED")).1).sys.subtitles,
      row.videoId ≠ vid) := by
  have h' : (removeHandle jid acc.sys).jobs jid = some jr := h
  refine ⟨?_, ?_, ?_, ?_, ?_, ?_, ?_, ?_⟩
  · simp [finishJob, deleteVideoFiles, updateJob, h']
  · simp [finishJob, deleteVideoFiles, updateJob]
  · simp [finishJob, deleteVideoFiles, updateJob]
  · simp [finishJob, deleteVideoFiles, updateJob]
  · simp [finishJob, deleteVideoFiles, updateJob]
  · simp [finishJob, deleteVideoFiles, updateJob]
  · intro row hrow
    simp only [finishJob] at hrow
    simp at hrow
    exact fun hv => by simp [hv] at hrow
  · intro row hrow
    simp only [finishJob] at hrow
    simp at hrow
    exact fun hv => by simp [hv] at hrow

/-- C2.  If a running job is cancelled (the rung loop raises the
distinguished `CANCELLED` outcome, from the loop-head flag check or a
cancelled encode), the job ends with persisted status `cancelled` and
error `Cancelled by user`, the video's output directory (hence its master
playlist) and thumbnail are deleted, the original uploaded input file is
deleted, all persisted `video_sources` and `subtitles` rows and the
`videos` row for the video are deleted, and the `encoding_jobs` record
itself survives carrying the cancelled status. -/
theorem claim_C2_cancellation_destructive (jobId videoId inputPath : String)
    (resolutions : List Resolution) (sched : Nat → RungObs) (st : SysState)
    (j0 : JobRecord) (hj : st.jobs jobId = some j0)
    (hc : (processEncodingJob jobId videoId inputPath resolutions sched st).2 = .error "CANCELLED") :
    ∃ jr, ((processEncodingJob jobId videoId inputPath resolutions sched st).1).sys.jobs jobId = some jr ∧
      jr.status = "cancelled" ∧ jr.error = some "Cancelled by user" ∧
      ((processEncodingJob jobId videoId inputPath resolutions sched st).1).sys.videoDirs videoId = false ∧
      ((processEncodingJob jobId videoId inputPath resolutions sched st).1).sys.thumbFiles videoId = false ∧
      ((processEncodingJob jobId videoId inputPath resolutions sched st).1).sys.masterFiles videoId = none ∧
      ((processEncodingJob jobId videoId inputPath resolutions sched st).1).sys.inputFiles inputPath = false ∧
      ((processEncodingJob jobId videoId inputPath resolutions sched st).1).sys.videos videoId = none ∧
      (∀ row ∈ ((processEncodingJob jobId videoId inputPath resolutions sched st).1).sys.videoSources,
        row.videoId ≠ videoId) ∧
      (∀ row ∈ ((processEncodingJob jobId videoId inputPath resolutions sched st).1).sys.subtitles,
        row.videoId ≠ videoId) := by
  rcases hrun : rungLoop jobId videoId resolutions.length sched 0 resolutions (initialAcc jobId videoId st)
    with ⟨acc, res⟩
  have hpe : processEncodingJob jobId videoId inputPath resolutions sched st =
      finishJob jobId videoId inputPath resolutions (acc, res) := by
    unfold processEncodingJob
    rw [hrun]
  rw [hpe] at hc
  rw [finishJob_snd] at hc
  subst hc
  have hinit : ((initialAcc jobId videoId st).sys.jobs jobId).isSome := by
    simp [initialAcc, updateJob, hj]
  have hsome := rungLoop_jobs_isSome jobId videoId resolutions.length sched resolutions 0 _ hinit
  rw [hrun] at hsome
  obtain ⟨jr, hjr⟩ := Option.isSome_iff_exists.mp hsome
  obtain ⟨g1, g2, g3, g4, g5, g6, g7, g8⟩ :=
    finishJob_cancel jobId videoId inputPath resolutions acc jr hjr
  rw [hpe]
  exact ⟨{ jr with status := "cancelled", error := some "Cancelled by user" },
    g1, rfl, rfl, g2, g3, g4, g5, g6, g7, g8⟩

/-- Witness for C2 at a concrete input: a job cancelled at the first
loop-head check ends cancelled with the video removed entirely. -/
theorem claim_C2_cancellation_destructive_witness :
    exState.jobs "job1" = some (initialJobRecord "v1" ["360p"]) ∧
    (processEncodingJob "job1" "v1" "in.mp4" (getTargetResolutions 400)
      (schedOf [obsCancelBefore]) exState).2 = .error "CANCELLED" ∧
    ∃ jr, ((processEncodingJob "job1" "v1" "in.mp4" (getTargetResolutions 400)
        (schedOf [obsCancelBefore]) exState).1).sys.jobs "job1" = some jr ∧
      jr.status = "cancelled" ∧ jr.error = some "Cancelled by user" ∧
      ((processEncodingJob "job1" "v1" "in.mp4" (getTargetResolutions 400)
        (schedOf [obsCancelBefore]) exState).1).sys.videoDirs "v1" = false ∧
      ((processEncodingJob "job1" "v1" "in.mp4" (getTargetResolutions 400)
        (schedOf [obsCancelBefore]) exState).1).sys.thumbFiles "v1" = false ∧
      ((processEncodingJob "job1" "v1" "in.mp4" (getTargetResolutions 400)
        (schedOf [obsCancelBefore]) exState).1).sys.masterFiles "v1" = none ∧
      ((processEncodingJob "job1" "v1" "in.mp4" (getTargetResolutions 400)
        (schedOf [obsCancelBefore]) exState).1).sys.inputFiles "in.mp4" = false ∧
      ((processEncodingJob "job1" "v1" "in.mp4" (getTargetResolutions 400)
        (schedOf [obsCancelBefore]) exState).1).sys.videos "v1" = none ∧
      (∀ row ∈ ((processEncodingJob "job1" "v1" "in.mp4" (getTargetResolutions 400)
        (schedOf [obsCancelBefore]) exState).1).sys.videoSources, row.videoId ≠ "v1") ∧
      (∀ row ∈ ((processEncodingJob "job1" "v1" "in.mp4" (getTargetResolutions 400)
        (schedOf [obsCancelBefore]) exState).1).sys.subtitles, row.videoId ≠ "v1") :=
  ⟨rfl, rfl,
    claim_C2_cancellation_destructive "job1" "v1" "in.mp4" (getTargetResolutions 400)
      (schedOf [obsCancelBefore]) exState (initialJobRecord "v1" ["360p"]) rfl rfl⟩

lemma finishJob_failed (jid vid ip : String) (rs : List Resolution) (acc : RunAcc)
    (msg : String) (hm : msg ≠ "CANCELLED") (jr : JobRecord) (h : acc.sys.jobs jid = some jr) :
    ((finishJob jid vid ip rs (acc, Except.error msg)).1).sys.jobs jid =
        some { jr with status := "failed", error := some msg } ∧
    ((finishJob jid vid ip rs (acc, Except.error msg)).1).sys.inputFiles = acc.sys.inputFiles ∧
    ((finishJob jid vid ip rs (acc, Except.error msg)).1).sys.videoSources = acc.sys.videoSources ∧
    ((finishJob jid vid ip rs (acc, Except.error msg)).1).sys.subtitles = acc.sys.subtitles ∧
    ((finishJob jid vid ip rs (acc, Except.error msg)).1).sys.videos = acc.sys.videos ∧
    ((finishJob jid vid ip rs (acc, Except.error msg)).1).sys.videoDirs = acc.sys.videoDirs ∧
    ((finishJob jid vid ip rs (acc, Except.error msg)).1).sys.thumbFiles = acc.sys.thumbFiles ∧
    ((finishJob jid vid ip rs (acc, Except.error msg)).1).sys.masterFiles = acc.sys.masterFiles := by
  refine ⟨?_, ?_, ?_, ?_, ?_, ?_, ?_, ?_⟩ <;>
    simp [finishJob, hm, updateJob, removeHandle, h]

lemma finishJob_ok_inputFiles (jid vid ip : String) (rs : List Resolution) (acc : RunAcc)
    (u : Unit) :
    ((finishJob jid vid ip rs (acc, Except.ok u)).1).sys.inputFiles ip = false := by
  by_cases hemp : acc.completed.isEmpty <;> simp [finishJob, hemp, removeHandle, updateJob]

/-- C10.  When a job ends with status `failed` (a non-cancellation error
escaping the rung loop — in the source such an error comes from a
statement outside the inner try, such as the rung-start UPDATE; errors
inside the inner try merely skip the rung), the original uploaded input
file — and indeed the whole file/table state outside the job record — is
left untouched: the job row is marked `failed` carrying the message,
while the input file is deleted only on the `completed` and `cancelled`
terminal paths, never on the `failed` path. -/
theorem claim_C10_failed_keeps_input (jobId videoId inputPath : String)
    (resolutions : List Resolution) (sched : Nat → RungObs) (st : SysState)
    (j0 : JobRecord) (hj : st.jobs jobId = some j0) :
    (∀ msg, (processEncodingJob jobId videoId inputPath resolutions sched st).2 = .error msg →
      msg ≠ "CANCELLED" →
      ((processEncodingJob jobId videoId inputPath resolutions sched st).1).sys.inputFiles = st.inputFiles ∧
      ∃ jr, ((processEncodingJob jobId videoId inputPath resolutions sched st).1).sys.jobs jobId = some jr ∧
        jr.status = "failed" ∧ jr.error = some msg) ∧
    ((processEncodingJob jobId videoId inputPath resolutions sched st).2 = .ok () →
      ((processEncodingJob jobId videoId inputPath resolutions sched st).1).sys.inputFiles inputPath = false) ∧
    ((processEncodingJob jobId videoId inputPath resolutions sched st).2 = .error "CANCELLED" →
      ((processEncodingJob jobId videoId inputPath resolutions sched st).1).sys.inputFiles inputPath = false) := by
  rcases hrun : rungLoop jobId videoId resolutions.length sched 0 resolutions (initialAcc jobId videoId st)
    with ⟨acc, res⟩
  have hpe : processEncodingJob jobId videoId inputPath resolutions sched st =
      finishJob jobId videoId inputPath resolutions (acc, res) := by
    unfold processEncodingJob
    rw [hrun]
  have hinit : ((initialAcc jobId videoId st).sys.jobs jobId).isSome := by
    simp [initialAcc, updateJob, hj]
  have hsome := rungLoop_jobs_isSome jobId videoId resolutions.length sched resolutions 0 _ hinit
  rw [hrun] at hsome
  obtain ⟨jr, hjr⟩ := Option.isSome_iff_exists.mp hsome
  have hloopin : acc.sys.inputFiles = st.inputFiles := by
    have := sysFrame_eq_inputFiles
      (rungLoop_sysFrame jobId videoId resolutions.length sched resolutions 0 (initialAcc jobId videoId st))
    rw [hrun] at this
    exact this
  refine ⟨?_, ?_, ?_⟩
  · intro msg hres hm
    rw [hpe] at hres
    rw [finishJob_snd] at hres
    obtain ⟨g1, g2, -⟩ := finishJob_failed jobId videoId inputPath resolutions acc msg hm jr hjr
    rw [hpe, hres]
    exact ⟨g2.trans hloopin, { jr with status := "failed", error := some msg }, g1, rfl, rfl⟩
  · intro hres
    rw [hpe] at hres ⊢
    rw [finishJob_snd] at hres
    rw [hres]
    exact finishJob_ok_inputFiles jobId videoId inputPath resolutions acc ()
  · intro hres
    rw [hpe] at hres ⊢
    rw [finishJob_snd] at hres
    rw [hres]
    have := (finishJob_cancel jobId videoId inputPath resolutions acc jr hjr).2.2.2.2.1
    exact this

/-- Witness for C10 at a concrete input: a rung whose rung-start UPDATE
statement throws (outside the inner try) leaves the job `failed` carrying
that message, with the uploaded file still present. -/
theorem claim_C10_failed_keeps_input_witness :
    exState.jobs "job1" = some (initialJobRecord "v1" ["360p"]) ∧
    (processEncodingJob "job1" "v1" "in.mp4" (getTargetResolutions 400)
      (schedOf [obsDbFail "disk I/O error"]) exState).2 = .error "disk I/O error" ∧
    ((processEncodingJob "job1" "v1" "in.mp4" (getTargetResolutions 400)
      (schedOf [obsDbFail "disk I/O error"]) exState).1).sys.inputFiles = exState.inputFiles ∧
    ∃ jr, ((processEncodingJob "job1" "v1" "in.mp4" (getTargetResolutions 400)
        (schedOf [obsDbFail "disk I/O error"]) exState).1).sys.jobs "job1" = some jr ∧
      jr.status = "failed" ∧ jr.error = some "disk I/O error" := by
  have h := (claim_C10_failed_keeps_input "job1" "v1" "in.mp4" (getTargetResolutions 400)
    (schedOf [obsDbFail "disk I/O error"]) exState (initialJobRecord "v1" ["360p"]) rfl).1
    "disk I/O error" rfl (by decide)
  exact ⟨rfl, rfl, h.1, h.2⟩

lemma rungLoop_noncancel (jid vid : String) (total : Nat) (sched : Nat → RungObs) :
    ∀ (rs : List Resolution) (i : Nat) (acc : RunAcc),
      (∀ k, k < rs.length → (sched (i + k)).cancelledBefore = false ∧
        (sched (i + k)).fatal = none ∧ rungRaisesCancel (sched (i + k)) = false) →
      (rungLoop jid vid total sched i rs acc).2 = .ok () ∧
      ((rungLoop jid vid total sched i rs acc).1).completed =
        acc.completed ++ okNamesFrom sched i rs ∧
      (∀ n ∈ okNamesFrom sched i rs,
        ∃ row ∈ ((rungLoop jid vid total sched i rs acc).1).sys.videoSources,
          row.videoId = vid ∧ row.resolution = n) := by
  intro rs
  induction rs with
  | nil =>
      intro i acc _
      refine ⟨rfl, by simp [rungLoop, okNamesFrom], ?_⟩
      intro n hn
      simp [okNamesFrom] at hn
  | cons r rest ih =>
      intro i acc h
      obtain ⟨hc0, hfat0, hnc0⟩ := h 0 (by simp)
      rw [Nat.add_zero] at hc0 hfat0 hnc0
      have hshift : ∀ k, k < rest.length → (sched (i + 1 + k)).cancelledBefore = false ∧
          (sched (i + 1 + k)).fatal = none ∧ rungRaisesCancel (sched (i + 1 + k)) = false := by
        intro k hk
        have e : i + (k + 1) = i + 1 + k := by omega
        have := h (k + 1) (by simpa using Nat.succ_lt_succ hk)
        rw [e] at this
        exact this
      rcases hres : encodeToHLSResult true (sched i) with msg | u
      · have hm : ¬ msg = "CANCELLED" := by
          intro he
          rw [rungRaisesCancel, hres, he] at hnc0
          simp at hnc0
        have hok : rungOk (sched i) = false := by rw [rungOk, hres]
        obtain ⟨ihr, ihc, ihs⟩ := ih (i + 1) (encodeStepAcc jid total i (sched i) r rest acc) hshift
        refine ⟨?_, ?_, ?_⟩
        · simp only [rungLoop, hfat0, hres]
          simpa [hc0, hm] using ihr
        · simp only [rungLoop, hfat0, hres, okNamesFrom, hok]
          simp only [if_false, Bool.false_eq_true]
          simpa [hc0, hm, encodeStepAcc] using ihc
        · intro n hn
          rw [okNamesFrom] at hn
          rw [hok] at hn
          simp only [Bool.false_eq_true, if_false] at hn
          have := ihs n hn
          simp only [rungLoop, hfat0, hres]
          simpa [hc0, hm] using this
      · have hok : rungOk (sched i) = true := by rw [rungOk, hres]
        obtain ⟨ihr, ihc, ihs⟩ := ih (i + 1)
          (successAcc jid vid (sched i) r (encodeStepAcc jid total i (sched i) r rest acc)) hshift
        have hnames : okNamesFrom sched i (r :: rest) = r.name :: okNamesFrom sched (i + 1) rest := by
          rw [okNamesFrom, hok]
          simp
        refine ⟨?_, ?_, ?_⟩
        · simp only [rungLoop, hfat0, hres, hfat0]
          simpa [hc0] using ihr
        · rw [hnames]
          simp only [rungLoop, hfat0, hres, hfat0]
          have hsc : (successAcc jid vid (sched i) r (encodeStepAcc jid total i (sched i) r rest acc)).completed
              = acc.completed ++ [r.name] := rfl
          simp [hc0]
          rw [ihc, hsc]
          simp [encodeStepAcc]
        · intro n hn
          rw [hnames] at hn
          rcases List.mem_cons.mp hn with he | htail
          · subst he
            have hmem : (⟨vid, r.name, sourceUrl vid r.name, (sched i).segSize⟩ : SourceRow) ∈ (successAcc jid vid (sched i) r (encodeStepAcc jid total i (sched i) r rest acc)).sys.videoSources := by
              simp [successAcc, updateJob]
            have hsurv := rungLoop_sources_mono jid vid total sched rest (i + 1) _ _ hmem
            simp only [rungLoop, hfat0, hres, hfat0]
            simp [hc0]
            exact ⟨_, hsurv, rfl, rfl⟩
          · have := ihs n htail
            simp only [rungLoop, hfat0, hres, hfat0]
            simpa [hc0] using this

lemma okNamesFrom_ne_nil (sched : Nat → RungObs) :
    ∀ (rs : List Resolution) (i : Nat),
      (∃ k, k < rs.length ∧ rungOk (sched (i + k)) = true) →
      okNamesFrom sched i rs ≠ [] := by
  intro rs
  induction rs with
  | nil =>
      intro i ⟨k, hk, _⟩
      simp at hk
  | cons r rest ih =>
      intro i ⟨k, hk, hko⟩
      by_cases h0 : rungOk (sched i) = true
      · rw [okNamesFrom, h0]
        simp
      · rw [okNamesFrom]
        simp only [h0]
        simp only [Bool.false_eq_true, if_false]
        rcases k with _ | k'
        · rw [Nat.add_zero] at hko
          exact absurd hko h0
        · refine ih (i + 1) ⟨k', by simpa using Nat.lt_of_succ_lt_succ hk, ?_⟩
          have e : i + (k' + 1) = i + 1 + k' := by omega
          rw [e] at hko
          exact hko

lemma finishJob_ok_jobs (jid vid ip : String) (rs : List Resolution) (acc : RunAcc)
    (u : Unit) (jr : JobRecord) (h : acc.sys.jobs jid = some jr) :
    ((finishJob jid vid ip rs (acc, Except.ok u)).1).sys.jobs jid =
      some { jr with status := "completed", progress := 100, currentResolution := none, resolutionsPending := [], completedAt := true } := by
  by_cases hemp : acc.completed.isEmpty <;>
    simp [finishJob, hemp, removeHandle, updateJob, h]

lemma finishJob_ok_master (jid vid ip : String) (rs : List Resolution) (acc : RunAcc)
    (u : Unit) (hne : acc.completed.isEmpty = false) :
    ((finishJob jid vid ip rs (acc, Except.ok u)).1).sys.masterFiles vid =
      some (generateMasterPlaylistLines (rs.filter (fun r => acc.completed.contains r.name))) := by
  simp [finishJob, hne, removeHandle, updateJob]

lemma finishJob_ok_sources_mono (jid vid ip : String) (rs : List Resolution) (acc : RunAcc)
    (u : Unit) (row : SourceRow) (h : row ∈ acc.sys.videoSources) :
    row ∈ ((finishJob jid vid ip rs (acc, Except.ok u)).1).sys.videoSources := by
  by_cases hemp : acc.completed.isEmpty
  · simpa [finishJob, hemp, removeHandle, updateJob] using h
  · simp [finishJob, hemp, removeHandle, updateJob]
    exact Or.inl h

lemma finishJob_ok_videoDirs (jid vid ip : String) (rs : List Resolution) (acc : RunAcc)
    (u : Unit) :
    ((finishJob jid vid ip rs (acc, Except.ok u)).1).sys.videoDirs = acc.sys.videoDirs := by
  by_cases hemp : acc.completed.isEmpty <;>
    simp [finishJob, hemp, removeHandle, updateJob]

/-- C3.  If one rung's encode fails with a non-cancellation error while
at least one other rung succeeds and no rung raises the cancellation
outcome (and no rung-start database statement throws), the job ends with
status `completed`, not `failed`: the failed rung is skipped,
`resolutions_completed` lists exactly the rungs that succeeded in ladder
order, the generated master playlist is built over exactly those
succeeded rungs, each succeeded rung's `video_sources` row is preserved,
and the video's output directory still exists. -/
theorem claim_C3_partial_failure_completes (jobId videoId inputPath : String)
    (resolutions : List Resolution) (sched : Nat → RungObs) (st : SysState)
    (j0 : JobRecord) (hj : st.jobs jobId = some j0) (hj0 : j0.resolutionsCompleted = [])
    (hall : ∀ k, k < resolutions.length → (sched k).cancelledBefore = false ∧
      (sched k).fatal = none ∧ rungRaisesCancel (sched k) = false)
    (_hfail : ∃ k, k < resolutions.length ∧ rungFailsNonCancel (sched k) = true)
    (hok : ∃ k, k < resolutions.length ∧ rungOk (sched k) = true) :
    (processEncodingJob jobId videoId inputPath resolutions sched st).2 = .ok () ∧
    (∃ jr, ((processEncodingJob jobId videoId inputPath resolutions sched st).1).sys.jobs jobId = some jr ∧
      jr.status = "completed" ∧ jr.resolutionsCompleted = okNamesFrom sched 0 resolutions) ∧
    ((processEncodingJob jobId videoId inputPath resolutions sched st).1).sys.masterFiles videoId =
      some (generateMasterPlaylistLines
        (resolutions.filter (fun r => (okNamesFrom sched 0 resolutions).contains r.name))) ∧
    (∀ n ∈ okNamesFrom sched 0 resolutions,
      ∃ row ∈ ((processEncodingJob jobId videoId inputPath resolutions sched st).1).sys.videoSources,
        row.videoId = videoId ∧ row.resolution = n) ∧
    ((processEncodingJob jobId videoId inputPath resolutions sched st).1).sys.videoDirs videoId = true := by
  rcases hrun : rungLoop jobId videoId resolutions.length sched 0 resolutions (initialAcc jobId videoId st)
    with ⟨acc, res⟩
  have hpe : processEncodingJob jobId videoId inputPath resolutions sched st =
      finishJob jobId videoId inputPath resolutions (acc, res) := by
    unfold processEncodingJob
    rw [hrun]
  have hall0 : ∀ k, k < resolutions.length → (sched (0 + k)).cancelledBefore = false ∧
      (sched (0 + k)).fatal = none ∧ rungRaisesCancel (sched (0 + k)) = false := by
    intro k hk
    simpa using hall k hk
  obtain ⟨hr, hcomp, hsrc⟩ :=
    rungLoop_noncancel jobId videoId resolutions.length sched resolutions 0 (initialAcc jobId videoId st) hall0
  rw [hrun] at hr hcomp hsrc
  have hres : res = .ok () := hr
  subst hres
  have hcomp' : acc.completed = okNamesFrom sched 0 resolutions := by
    simpa [initialAcc] using hcomp
  have hjr0 : (initialAcc jobId videoId st).sys.jobs jobId =
      some { j0 with status := "encoding", progress := 0 } := by
    simp [initialAcc, updateJob, hj]
  have hsync0 : ({ j0 with status := "encoding", progress := 0 } : JobRecord).resolutionsCompleted =
      (initialAcc jobId videoId st).completed := by
    simpa [initialAcc] using hj0
  obtain ⟨jr', hjr', hsync', -⟩ :=
    rungLoop_record_completed jobId videoId resolutions.length sched resolutions 0
      (initialAcc jobId videoId st) _ hjr0 hsync0
  rw [hrun] at hjr' hsync'
  have hsyncok : jr'.resolutionsCompleted = okNamesFrom sched 0 resolutions := by
    rw [hsync', hcomp']
  have hne : acc.completed.isEmpty = false := by
    rw [hcomp']
    have := okNamesFrom_ne_nil sched resolutions 0 (by simpa using hok)
    cases he : (okNamesFrom sched 0 resolutions).isEmpty
    · rfl
    · exact absurd (List.isEmpty_iff.mp he) this
  refine ⟨?_, ?_, ?_, ?_, ?_⟩
  · rw [hpe, finishJob_snd]
  · refine ⟨{ jr' with status := "completed", progress := 100, currentResolution := none, resolutionsPending := [], completedAt := true }, ?_, rfl, ?_⟩
    · rw [hpe]
      exact finishJob_ok_jobs jobId videoId inputPath resolutions acc () jr' hjr'
    · simpa using hsyncok
  · rw [hpe]
    rw [finishJob_ok_master jobId videoId inputPath resolutions acc () hne, hcomp']
  · intro n hn
    obtain ⟨row, hrow, hv, hres'⟩ := hsrc n hn
    rw [hpe]
    exact ⟨row, finishJob_ok_sources_mono jobId videoId inputPath resolutions acc () row hrow, hv, hres'⟩
  · rw [hpe, finishJob_ok_videoDirs]
    have hdir := sysFrame_eq_videoDirs
      (rungLoop_sysFrame jobId videoId resolutions.length sched resolutions 0 (initialAcc jobId videoId st))
    rw [hrun] at hdir
    rw [hdir]
    simp [initialAcc, updateJob]

/-- Witness for C3 at a concrete input: over the height-720 ladder, 360p
and 480p succeed, 720p fails with a non-cancellation error; the job
completes with exactly the two succeeded rungs recorded and a master
playlist over them. -/
theorem claim_C3_partial_failure_completes_witness :
    (∃ k, k < (getTargetResolutions 720).length ∧
      rungFailsNonCancel (schedOf [obsPlainOk [], obsPlainOk [], obsPlainFail "boom"] k) = true) ∧
    (processEncodingJob "job1" "v1" "in.mp4" (getTargetResolutions 720)
      (schedOf [obsPlainOk [], obsPlainOk [], obsPlainFail "boom"]) exState).2 = .ok () ∧
    okNamesFrom (schedOf [obsPlainOk [], obsPlainOk [], obsPlainFail "boom"]) 0
      (getTargetResolutions 720) = ["360p", "480p"] ∧
    (∃ jr, ((processEncodingJob "job1" "v1" "in.mp4" (getTargetResolutions 720)
        (schedOf [obsPlainOk [], obsPlainOk [], obsPlainFail "boom"]) exState).1).sys.jobs "job1" = some jr ∧
      jr.status = "completed" ∧
      jr.resolutionsCompleted = okNamesFrom (schedOf [obsPlainOk [], obsPlainOk [], obsPlainFail "boom"]) 0
        (getTargetResolutions 720)) := by
  have h := claim_C3_partial_failure_completes "job1" "v1" "in.mp4" (getTargetResolutions 720)
    (schedOf [obsPlainOk [], obsPlainOk [], obsPlainFail "boom"]) exState
    (initialJobRecord "v1" ["360p"]) rfl rfl (by decide) ⟨2, by decide, by decide⟩
    ⟨0, by decide, by decide⟩
  exact ⟨⟨2, by decide, by decide⟩, h.1, by decide, h.2.1⟩

lemma finishJob_completed (jid vid ip : String) (rs : List Resolution) (acc : RunAcc)
    (res : Except String Unit) : (finishJob jid vid ip rs (acc, res)).1.completed = acc.completed := by
  rcases res with msg | u
  · by_cases hm : msg = "CANCELLED" <;> simp [finishJob, hm]
  · by_cases hemp : acc.completed.isEmpty <;> simp [finishJob, hemp]

lemma processEncodingJob_completed_sublist (jid vid ip : String) (rs : List Resolution)
    (sched : Nat → RungObs) (st : SysState) :
    ((processEncodingJob jid vid ip rs sched st).1).completed.Sublist (rs.map Resolution.name) := by
  rcases hrun : rungLoop jid vid rs.length sched 0 rs (initialAcc jid vid st) with ⟨acc, res⟩
  have hpe : processEncodingJob jid vid ip rs sched st = finishJob jid vid ip rs (acc, res) := by
    unfold processEncodingJob
    rw [hrun]
  obtain ⟨l, hl, hsub⟩ := rungLoop_completed_sublist jid vid rs.length sched rs 0 (initialAcc jid vid st)
  rw [hrun] at hl
  have hl' : acc.completed = l := by simpa [initialAcc] using hl
  rw [hpe, finishJob_completed, hl']
  exact hsub

/-- C5.  When a hardware backend is in use (`useGPU` with an available
GPU) and a rung's first encode attempt fails with a non-cancellation
error, exactly one retry of that same rung is performed, the retry
selects the software (libx264) parameter set, and the retry's outcome
decides the rung: a successful software retry resolves the rung
successfully, a software failure is terminal for the rung (still exactly
two attempts, no third).  At the orchestrator, a rung is appended to the
completed list at most once: for a ladder of distinct rung names, no name
ever appears twice in `completedResolutions`. -/
theorem claim_C5_hardware_fallback (o : RungObs) (msg : String)
    (hgpu : o.gpuAvailable = true) (hexit : o.first.exit = .abnormal msg)
    (hflag : o.first.cancelledAtExit = false) :
    encodeAttempts true o = 2 ∧
    selectsSoftwareEncoder false o.gpuAvailable = true ∧
    encodeToHLSResult true o = attemptResult o.retry ∧
    (o.retry.exit = .normal → encodeToHLSResult true o = .ok ()) ∧
    (∀ m, o.retry.exit = .abnormal m → o.retry.cancelledAtExit = false →
      encodeToHLSResult true o = .error m ∧ encodeAttempts true o = 2) ∧
    (∀ (jobId videoId inputPath : String) (resolutions : List Resolution)
        (sched : Nat → RungObs) (st : SysState),
      (resolutions.map Resolution.name).Nodup →
      ∀ n, ((processEncodingJob jobId videoId inputPath resolutions sched st).1).completed.count n ≤ 1) := by
  refine ⟨?_, ?_, ?_, ?_, ?_, ?_⟩
  · simp [encodeAttempts, hgpu, hexit, hflag]
  · simp [selectsSoftwareEncoder]
  · simp [encodeToHLSResult, hgpu, hexit, hflag]
  · intro hre
    simp [encodeToHLSResult, hgpu, hexit, hflag, attemptResult, hre]
  · intro m hre hrf
    constructor
    · simp [encodeToHLSResult, hgpu, hexit, hflag, attemptResult, hre, hrf]
    · simp [encodeAttempts, hgpu, hexit, hflag]
  · intro jobId videoId inputPath resolutions sched st hnd n
    have hsub := processEncodingJob_completed_sublist jobId videoId inputPath resolutions sched st
    exact (hsub.count_le n).trans (List.nodup_iff_count_le_one.mp hnd n)

/-- Witness for C5 at a concrete input: the fallback observation (nvenc
attempt fails at 50 percent, software retry succeeds) makes exactly two
attempts and resolves successfully, and the single-rung job records the
rung exactly once. -/
theorem claim_C5_hardware_fallback_witness :
    encodeAttempts true obsFallback = 2 ∧
    encodeToHLSResult true obsFallback = .ok () ∧
    ((processEncodingJob "job1" "v1" "in.mp4" (getTargetResolutions 400)
      (schedOf [obsFallback]) exState).1).completed.count "360p" ≤ 1 := by
  have h := claim_C5_hardware_fallback obsFallback "nvenc exploded" rfl rfl rfl
  exact ⟨h.1, h.2.2.2.1 rfl, h.2.2.2.2.2 "job1" "v1" "in.mp4" (getTargetResolutions 400)
    (schedOf [obsFallback]) exState (by decide) "360p"⟩

/-- C7 counterexample.  The claim asserts that a rung's encode rejects
with the distinguished cancellation error `CANCELLED` only if the cancel
flag was set when the subprocess terminated abnormally.  The cancellation
sentinel is in-band (an error whose message is the string `CANCELLED`),
so an encoder whose abnormal-exit message is itself the literal
`CANCELLED` — with the cancel flag clear — produces a rejection
indistinguishable from deliberate cancellation, falsifying the claimed
equivalence at this input. -/
theorem claim_C7_counterexample :
    encodeToHLSResult true (obsPlainFail "CANCELLED") = .error "CANCELLED" ∧
    (obsPlainFail "CANCELLED").first.cancelledAtExit = false ∧
    flagSetAtAbnormalTermination true (obsPlainFail "CANCELLED") = false :=
  ⟨rfl, rfl, rfl⟩

/-- C7 (amended).  Provided the underlying encoder error messages are not
the literal sentinel `CANCELLED`, a rung's encode rejects with the
distinguished cancellation error if and only if the job's cancel flag was
set when an executed subprocess attempt terminated abnormally; a normal
first-attempt exit resolves as success; and without hardware in use an
abnormal exit with the flag clear surfaces the underlying message. -/
theorem claim_C7_cancel_iff (useGPU : Bool) (o : RungObs)
    (h1 : exitMsgNotSentinel o.first.exit = true)
    (h2 : exitMsgNotSentinel o.retry.exit = true) :
    (encodeToHLSResult useGPU o = .error "CANCELLED" ↔
      flagSetAtAbnormalTermination useGPU o = true) ∧
    (o.first.exit = .normal → encodeToHLSResult useGPU o = .ok ()) ∧
    (∀ msg, (useGPU && o.gpuAvailable) = false → o.first.exit = .abnormal msg →
      o.first.cancelledAtExit = false → encodeToHLSResult useGPU o = .error msg) := by
  rcases hfe : o.first.exit with _ | m1
  · refine ⟨?_, fun _ => ?_, ?_⟩
    · by_cases hb : (useGPU && o.gpuAvailable) = true <;>
        simp [encodeToHLSResult, attemptResult, flagSetAtAbnormalTermination, hfe, hb]
    · by_cases hb : (useGPU && o.gpuAvailable) = true <;>
        simp [encodeToHLSResult, attemptResult, hfe, hb]
    · intro msg _ hcontra
      exact absurd hcontra (by simp)
  · rw [hfe] at h1
    have hm1 : m1 ≠ "CANCELLED" := by simpa [exitMsgNotSentinel] using h1
    by_cases hb : (useGPU && o.gpuAvailable) = true
    · by_cases hf1 : o.first.cancelledAtExit = true
      · refine ⟨?_, ?_, ?_⟩
        · simp [encodeToHLSResult, flagSetAtAbnormalTermination, hfe, hb, hf1]
        · intro hcontra
          exact absurd hcontra (by simp)
        · intro msg hb' _ _
          rw [hb] at hb'
          exact absurd hb' (by simp)
      · have hf1' : o.first.cancelledAtExit = false := by simpa using hf1
        rcases hre : o.retry.exit with _ | m2
        · refine ⟨?_, ?_, ?_⟩
          · simp [encodeToHLSResult, attemptResult, flagSetAtAbnormalTermination, hfe, hb, hf1', hre]
          · intro hcontra
            exact absurd hcontra (by simp)
          · intro msg hb' _ _
            rw [hb] at hb'
            exact absurd hb' (by simp)
        · rw [hre] at h2
          have hm2 : m2 ≠ "CANCELLED" := by simpa [exitMsgNotSentinel] using h2
          by_cases hf2 : o.retry.cancelledAtExit = true
          · refine ⟨?_, ?_, ?_⟩
            · simp [encodeToHLSResult, attemptResult, flagSetAtAbnormalTermination, hfe, hb, hf1', hre, hf2]
            · intro hcontra
              exact absurd hcontra (by simp)
            · intro msg hb' _ _
              rw [hb] at hb'
              exact absurd hb' (by simp)
          · have hf2' : o.retry.cancelledAtExit = false := by simpa using hf2
            refine ⟨?_, ?_, ?_⟩
            · simp [encodeToHLSResult, attemptResult, flagSetAtAbnormalTermination, hfe, hb, hf1', hre, hf2', hm2]
            · intro hcontra
              exact absurd hcontra (by simp)
            · intro msg hb' _ _
              rw [hb] at hb'
              exact absurd hb' (by simp)
    · have hb' : (useGPU && o.gpuAvailable) = false := by simpa using hb
      by_cases hf1 : o.first.cancelledAtExit = true
      · refine ⟨?_, ?_, ?_⟩
        · simp [encodeToHLSResult, attemptResult, flagSetAtAbnormalTermination, hfe, hb', hf1]
        · intro hcontra
          exact absurd hcontra (by simp)
        · intro msg _ _ hf1'
          rw [hf1] at hf1'
          exact absurd hf1' (by simp)
      · have hf1' : o.first.cancelledAtExit = false := by simpa using hf1
        refine ⟨?_, ?_, ?_⟩
        · simp [encodeToHLSResult, attemptResult, flagSetAtAbnormalTermination, hfe, hb', hf1', hm1]
        · intro hcontra
          exact absurd hcontra (by simp)
        · intro msg _ hmsg _
          cases hmsg
          simp [encodeToHLSResult, attemptResult, hfe, hb', hf1']

/-- Witness for C7 (amended) at a concrete input: a plain software
failure with message `boom` (flag clear) is not the cancellation
rejection, and the flag-observation predicate agrees. -/
theorem claim_C7_cancel_iff_witness :
    (encodeToHLSResult true (obsPlainFail "boom") = .error "CANCELLED" ↔
      flagSetAtAbnormalTermination true (obsPlainFail "boom") = true) ∧
    encodeToHLSResult true (obsPlainFail "boom") = .error "boom" :=
  ⟨(claim_C7_cancel_iff true (obsPlainFail "boom") (by decide) (by decide)).1,
    (claim_C7_cancel_iff true (obsPlainFail "boom") (by decide) (by decide)).2.2 "boom"
      (by decide) rfl rfl⟩

lemma startEncodingJob_probe_error (jobId videoId inputPath thumb : String)
    (emb ext : List SubtitleEntry) (st : SysState) (e : String)
    (hin : st.inputFiles inputPath = true) :
    startEncodingJob jobId videoId inputPath (.error e) thumb emb ext st = (st, .error e) := by
  simp [startEncodingJob, hin]

lemma getTargetResolutions_too_low (hgt : Nat) (hlow : hgt < 360) :
    getTargetResolutions hgt = [] := by
  rw [getTargetResolutions, List.filter_eq_nil_iff]
  intro a ha
  fin_cases ha <;> simp <;> omega

lemma startEncodingJob_too_low (jobId videoId inputPath thumb : String)
    (emb ext : List SubtitleEntry) (st : SysState) (info : VideoInfo)
    (hin : st.inputFiles inputPath = true) (hlow : info.height < 360) :
    (startEncodingJob jobId videoId inputPath (.ok info) thumb emb ext st).2 =
      .error "Source video resolution too low" ∧
    (startEncodingJob jobId videoId inputPath (.ok info) thumb emb ext st).1.jobs = st.jobs ∧
    (startEncodingJob jobId videoId inputPath (.ok info) thumb emb ext st).1.activeEncodings =
      st.activeEncodings := by
  have hempty := getTargetResolutions_too_low info.height hlow
  by_cases ht : thumb = "" <;> by_cases hs : (emb ++ ext).isEmpty <;>
    simp [startEncodingJob, hin, hempty, ht, hs]

lemma finishJob_startedTrace (jid vid ip : String) (rs : List Resolution) (acc : RunAcc)
    (res : Except String Unit) :
    (finishJob jid vid ip rs (acc, res)).1.startedTrace = acc.startedTrace := by
  rcases res with msg | u
  · by_cases hm : msg = "CANCELLED" <;> simp [finishJob, hm]
  · by_cases hemp : acc.completed.isEmpty <;> simp [finishJob, hemp]

lemma processEncodingJob_startedTrace (jid vid ip : String) (rs : List Resolution)
    (sched : Nat → RungObs) (st : SysState) :
    ∃ k, ((processEncodingJob jid vid ip rs sched st).1).startedTrace =
      (rs.map Resolution.name).take k := by
  rcases hrun : rungLoop jid vid rs.length sched 0 rs (initialAcc jid vid st) with ⟨acc, res⟩
  have hpe : processEncodingJob jid vid ip rs sched st = finishJob jid vid ip rs (acc, res) := by
    unfold processEncodingJob
    rw [hrun]
  obtain ⟨k, hk⟩ := rungLoop_startedTrace jid vid rs.length sched rs 0 (initialAcc jid vid st)
  rw [hrun] at hk
  refine ⟨k, ?_⟩
  rw [hpe, finishJob_startedTrace, hk]
  simp [initialAcc]

/-- C4.  The ladder planner returns the fixed master ladder filtered to
the rungs whose height does not exceed the source height, in ascending
height order, and the orchestrator processes rungs in that list order
(its trace of started rungs is always a prefix of the planned rung
names).  For source height 1080 the plan is exactly
360p, 480p, 720p, 1080p in that order; for 500 exactly 360p, 480p; and
for 100 the empty list, on which `startEncodingJob` fails synchronously
with the source-too-low error, creating no job record and no handle. -/
theorem claim_C4_ladder (jobId videoId inputPath thumb : String) (w : Nat) (d : Rat)
    (emb ext : List SubtitleEntry) (st : SysState)
    (hin : st.inputFiles inputPath = true) :
    (getTargetResolutions 1080).map Resolution.name = ["360p", "480p", "720p", "1080p"] ∧
    (getTargetResolutions 500).map Resolution.name = ["360p", "480p"] ∧
    getTargetResolutions 100 = [] ∧
    (∀ hgt, List.Pairwise heightLe (getTargetResolutions hgt)) ∧
    ((startEncodingJob jobId videoId inputPath (.ok ⟨w, 100, d⟩) thumb emb ext st).2 =
        .error "Source video resolution too low" ∧
      (startEncodingJob jobId videoId inputPath (.ok ⟨w, 100, d⟩) thumb emb ext st).1.jobs = st.jobs ∧
      (startEncodingJob jobId videoId inputPath (.ok ⟨w, 100, d⟩) thumb emb ext st).1.activeEncodings =
        st.activeEncodings) ∧
    (∀ (jid2 vid2 ip2 : String) (resolutions : List Resolution) (sched : Nat → RungObs)
        (st2 : SysState),
      ∃ k, ((processEncodingJob jid2 vid2 ip2 resolutions sched st2).1).startedTrace =
        (resolutions.map Resolution.name).take k) := by
  refine ⟨by decide, by decide, by decide, ?_, ?_, ?_⟩
  · intro hgt
    exact List.Pairwise.sublist (List.filter_sublist RESOLUTIONS) (by decide)
  · exact startEncodingJob_too_low jobId videoId inputPath thumb emb ext st ⟨w, 100, d⟩ hin
      (show (100 : Nat) < 360 by decide)
  · intro jid2 vid2 ip2 resolutions sched st2
    exact processEncodingJob_startedTrace jid2 vid2 ip2 resolutions sched st2

/-- Witness for C4 at a concrete input: starting a job on a 640 x 100
source against the example state fails with the source-too-low error and
registers nothing. -/
theorem claim_C4_ladder_witness :
    exState.inputFiles "in.mp4" = true ∧
    (startEncodingJob "job1" "v1" "in.mp4" (.ok ⟨640, 100, 30⟩) "" [] [] exState).2 =
      .error "Source video resolution too low" ∧
    (startEncodingJob "job1" "v1" "in.mp4" (.ok ⟨640, 100, 30⟩) "" [] [] exState).1.activeEncodings =
      exState.activeEncodings :=
  ⟨rfl,
    (claim_C4_ladder "job1" "v1" "in.mp4" "" 640 30 [] [] exState rfl).2.2.2.2.1.1,
    (claim_C4_ladder "job1" "v1" "in.mp4" "" 640 30 [] [] exState rfl).2.2.2.2.1.2.2⟩

/-- C6 counterexample.  The claim asserts that a `startEncodingJob`
failure before a job record is registered leaves no persisted state
changes.  On the empty-ladder path this is false: with a 640 x 100
source, a produced thumbnail and one discovered subtitle, the call does
fail synchronously with the source-too-low error and creates no job
record — but the subtitle row has been inserted and the video row's
duration and thumbnail have been persisted. -/
theorem claim_C6_counterexample :
    (startEncodingJob "job1" "v1" "in.mp4" (.ok ⟨640, 100, 30⟩) "/storage/thumbnails/v1.jpg"
        [⟨"English", "en", "/storage/subtitles/v1/subtitle_0.vtt", true⟩] [] exState).2 =
      .error "Source video resolution too low" ∧
    (startEncodingJob "job1" "v1" "in.mp4" (.ok ⟨640, 100, 30⟩) "/storage/thumbnails/v1.jpg"
        [⟨"English", "en", "/storage/subtitles/v1/subtitle_0.vtt", true⟩] [] exState).1.jobs "job2" =
      none ∧
    (startEncodingJob "job1" "v1" "in.mp4" (.ok ⟨640, 100, 30⟩) "/storage/thumbnails/v1.jpg"
        [⟨"English", "en", "/storage/subtitles/v1/subtitle_0.vtt", true⟩] [] exState).1.subtitles ≠
      exState.subtitles ∧
    (startEncodingJob "job1" "v1" "in.mp4" (.ok ⟨640, 100, 30⟩) "/storage/thumbnails/v1.jpg"
        [⟨"English", "en", "/storage/subtitles/v1/subtitle_0.vtt", true⟩] [] exState).1.videos "v1" ≠
      exState.videos "v1" :=
  ⟨rfl, rfl, by decide, by decide⟩

/-- C6 (amended).  Errors raised by `startEncodingJob` before a job is
registered are returned synchronously and create neither a job record
nor an active handle; on a metadata-probe failure the state is entirely
unchanged, while on the empty-ladder (source-too-low) path the video's
duration/thumbnail updates and any discovered subtitle rows made before
planning remain persisted. -/
theorem claim_C6_prejob_failures (jobId videoId inputPath thumb : String)
    (emb ext : List SubtitleEntry) (st : SysState)
    (hin : st.inputFiles inputPath = true) :
    (∀ e, startEncodingJob jobId videoId inputPath (.error e) thumb emb ext st = (st, .error e)) ∧
    (∀ info : VideoInfo, info.height < 360 →
      (startEncodingJob jobId videoId inputPath (.ok info) thumb emb ext st).2 =
        .error "Source video resolution too low" ∧
      (startEncodingJob jobId videoId inputPath (.ok info) thumb emb ext st).1.jobs = st.jobs ∧
      (startEncodingJob jobId videoId inputPath (.ok info) thumb emb ext st).1.activeEncodings =
        st.activeEncodings) := by
  refine ⟨?_, ?_⟩
  · intro e
    exact startEncodingJob_probe_error jobId videoId inputPath thumb emb ext st e hin
  · intro info hlow
    exact startEncodingJob_too_low jobId videoId inputPath thumb emb ext st info hin hlow

/-- Witness for C6 (amended) at a concrete input: a probe failure on the
example state changes nothing, and a 100-high source fails the plan
without creating a job or handle. -/
theorem claim_C6_prejob_failures_witness :
    startEncodingJob "job1" "v1" "in.mp4" (.error "No video stream found") "" [] [] exState =
      (exState, .error "No video stream found") ∧
    (startEncodingJob "job1" "v1" "in.mp4" (.ok ⟨640, 100, 30⟩) "" [] [] exState).1.jobs =
      exState.jobs :=
  ⟨(claim_C6_prejob_failures "job1" "v1" "in.mp4" "" [] [] exState rfl).1 "No video stream found",
    ((claim_C6_prejob_failures "job1" "v1" "in.mp4" "" [] [] exState rfl).2
      ⟨640, 100, 30⟩ (by decide)).2.1⟩

lemma clampTick_nonneg (q : Rat) : 0 ≤ clampTick q :=
  le_min (by norm_num) (le_max_left 0 q)

lemma clampTick_le_100 (q : Rat) : clampTick q ≤ 100 := min_le_left _ _

lemma baseProg_mono (total : Nat) {i j : Nat} (hij : i ≤ j) :
    baseProg i total ≤ baseProg j total := by
  unfold baseProg
  have hcast : ((i : Rat)) ≤ (j : Rat) := by exact_mod_cast hij
  have htot : (0 : Rat) ≤ (total : Rat) := by positivity
  exact mul_le_mul_of_nonneg_right (div_le_div_of_nonneg_right hcast htot) (by norm_num)

lemma overallOf_ge_base (i total : Nat) (t : Rat) :
    baseProg i total ≤ overallOf i total t := by
  unfold baseProg overallOf
  have h1 : ((i : Rat)) ≤ (i : Rat) + clampTick t / 100 :=
    le_add_of_nonneg_right (div_nonneg (clampTick_nonneg t) (by norm_num))
  have htot : (0 : Rat) ≤ (total : Rat) := by positivity
  exact mul_le_mul_of_nonneg_right (div_le_div_of_nonneg_right h1 htot) (by norm_num)

lemma overallOf_le_base_succ (i total : Nat) (t : Rat) :
    overallOf i total t ≤ baseProg (i + 1) total := by
  unfold baseProg overallOf
  have h1 : (i : Rat) + clampTick t / 100 ≤ ((i + 1 : Nat) : Rat) := by
    push_cast
    have : clampTick t / 100 ≤ 1 := by
      rw [div_le_one (by norm_num : (0:Rat) < 100)]
      exact clampTick_le_100 t
    linarith
  have htot : (0 : Rat) ≤ (total : Rat) := by positivity
  exact mul_le_mul_of_nonneg_right (div_le_div_of_nonneg_right h1 htot) (by norm_num)

lemma overallOf_mono (i total : Nat) {a b : Rat} (h : clampTick a ≤ clampTick b) :
    overallOf i total a ≤ overallOf i total b := by
  unfold overallOf
  have h1 : (i : Rat) + clampTick a / 100 ≤ (i : Rat) + clampTick b / 100 := by
    have : clampTick a / 100 ≤ clampTick b / 100 :=
      div_le_div_of_nonneg_right h (by norm_num)
    linarith
  have htot : (0 : Rat) ≤ (total : Rat) := by positivity
  exact mul_le_mul_of_nonneg_right (div_le_div_of_nonneg_right h1 htot) (by norm_num)

lemma tickWrites_pairwise (i total : Nat) (ticks : List Rat)
    (h : List.Pairwise (fun a b : Rat => a ≤ b) (ticks.map clampTick)) :
    List.Pairwise (fun a b : Rat => a ≤ b) (tickWrites i total ticks) := by
  unfold tickWrites
  refine List.Pairwise.sublist (List.filter_sublist _) ?_
  have hc : List.Pairwise (fun a b : Rat => clampTick a ≤ clampTick b) ticks :=
    List.pairwise_map.mp h
  exact List.pairwise_map.mpr (hc.imp (fun hab => overallOf_mono i total hab))

lemma tickWrites_mem_bounds (i total : Nat) (ticks : List Rat) (w : Rat)
    (hw : w ∈ tickWrites i total ticks) :
    baseProg i total ≤ w ∧ w ≤ baseProg (i + 1) total := by
  unfold tickWrites at hw
  obtain ⟨hmem, -⟩ := List.mem_filter.mp hw
  obtain ⟨t, -, ht⟩ := List.mem_map.mp hmem
  subst ht
  exact ⟨overallOf_ge_base i total t, overallOf_le_base_succ i total t⟩

lemma rungLoop_progress_pairwise (jid vid : String) (total : Nat) (sched : Nat → RungObs)
    (hticks : ∀ k, List.Pairwise (fun a b : Rat => a ≤ b) ((rungTicks true (sched k)).map clampTick)) :
    ∀ (rs : List Resolution) (i : Nat) (acc : RunAcc),
      List.Pairwise (fun a b : Rat => a ≤ b) acc.progressTrace →
      (∀ x ∈ acc.progressTrace, x ≤ baseProg i total) →
      List.Pairwise (fun a b : Rat => a ≤ b) ((rungLoop jid vid total sched i rs acc).1).progressTrace ∧
      ∀ x ∈ ((rungLoop jid vid total sched i rs acc).1).progressTrace,
        x ≤ baseProg (i + rs.length) total := by
  intro rs
  induction rs with
  | nil =>
      intro i acc hP hB
      refine ⟨by simpa [rungLoop] using hP, ?_⟩
      intro x hx
      rw [rungLoop] at hx
      simpa using hB x hx
  | cons r rest ih =>
      intro i acc hP hB
      by_cases hc : (sched i).cancelledBefore
      · refine ⟨by simpa [rungLoop, hc] using hP, ?_⟩
        intro x hx
        rw [rungLoop] at hx
        simp only [hc, if_true] at hx
        exact (hB x hx).trans (baseProg_mono total (Nat.le_add_right i _))
      · rcases hfat : (sched i).fatal with _ | m
        rotate_left
        · refine ⟨by simpa [rungLoop, hc, hfat] using hP, ?_⟩
          intro x hx
          rw [rungLoop] at hx
          simp only [hc, hfat] at hx
          simp at hx
          exact (hB x hx).trans (baseProg_mono total (Nat.le_add_right i _))
        set acc1 := encodeStepAcc jid total i (sched i) r rest acc with hacc1
        have htr1 : acc1.progressTrace =
            acc.progressTrace ++ baseProg i total :: tickWrites i total (rungTicks true (sched i)) := rfl
        have hP1 : List.Pairwise (fun a b : Rat => a ≤ b) acc1.progressTrace := by
          rw [htr1, List.pairwise_append]
          refine ⟨hP, ?_, ?_⟩
          · rw [List.pairwise_cons]
            refine ⟨?_, tickWrites_pairwise i total _ (hticks i)⟩
            intro w hw
            exact (tickWrites_mem_bounds i total _ w hw).1
          · intro x hx y hy
            have hxi : x ≤ baseProg i total := hB x hx
            rcases List.mem_cons.mp hy with he | hmem
            · rw [he]; exact hxi
            · exact hxi.trans (tickWrites_mem_bounds i total _ y hmem).1
        have hB1 : ∀ x ∈ acc1.progressTrace, x ≤ baseProg (i + 1) total := by
          rw [htr1]
          intro x hx
          rcases List.mem_append.mp hx with hmem | hmem
          · exact (hB x hmem).trans (baseProg_mono total (Nat.le_succ i))
          · rcases List.mem_cons.mp hmem with he | hmem'
            · rw [he]; exact baseProg_mono total (Nat.le_succ i)
            · exact (tickWrites_mem_bounds i total _ x hmem').2
        have hstep : i + 1 + rest.length = i + (r :: rest).length := by
          simp [List.length_cons]
          omega
        rcases hres : encodeToHLSResult true (sched i) with msg | u
        · by_cases hm : msg = "CANCELLED"
          · refine ⟨?_, ?_⟩
            · simp only [rungLoop, hfat, hres, hm]
              simpa [hc] using hP1
            · intro x hx
              simp only [rungLoop, hfat, hres, hm] at hx
              simp only [hc] at hx
              simp at hx
              refine (hB1 x ?_).trans (baseProg_mono total (by omega))
              simpa [hacc1] using hx
          · obtain ⟨hPo, hBo⟩ := ih (i + 1) acc1 hP1 hB1
            refine ⟨?_, ?_⟩
            · simp only [rungLoop, hfat, hres]
              simpa [hc, hm] using hPo
            · intro x hx
              simp only [rungLoop, hfat, hres] at hx
              simp only [hc, hm] at hx
              simp at hx
              rw [← hstep]
              refine hBo x ?_
              simpa [hacc1] using hx
        · have hP2 : List.Pairwise (fun a b : Rat => a ≤ b)
              (successAcc jid vid (sched i) r acc1).progressTrace := hP1
          have hB2 : ∀ x ∈ (successAcc jid vid (sched i) r acc1).progressTrace,
              x ≤ baseProg (i + 1) total := hB1
          obtain ⟨hPo, hBo⟩ := ih (i + 1) (successAcc jid vid (sched i) r acc1) hP2 hB2
          refine ⟨?_, ?_⟩
          · simp only [rungLoop, hfat, hres]
            simpa [hc] using hPo
          · intro x hx
            simp only [rungLoop, hfat, hres] at hx
            simp only [hc] at hx
            simp at hx
            rw [← hstep]
            refine hBo x ?_
            simpa [hacc1] using hx

lemma finishJob_progressTrace (jid vid ip : String) (rs : List Resolution) (acc : RunAcc)
    (res : Except String Unit) :
    (finishJob jid vid ip rs (acc, res)).1.progressTrace = acc.progressTrace := by
  rcases res with msg | u
  · by_cases hm : msg = "CANCELLED" <;> simp [finishJob, hm]
  · by_cases hemp : acc.completed.isEmpty <;> simp [finishJob, hemp]

/-- C1 (amended).  Provided each rung's sequence of progress callbacks
delivered to the orchestrator (the clamped percent values forwarded by
`encodeToHLS`, across all of that rung's attempts) is itself
non-decreasing, the sequence of `progress` values persisted while the job
is `encoding` is non-decreasing.  (The proviso is necessary: a hardware
attempt that fails mid-rung and is re-attempted on the software backend
restarts the rung's percentages near zero and makes the persisted value
decrease — see the counterexample.) -/
theorem claim_C1_progress_monotone (jobId videoId inputPath : String)
    (resolutions : List Resolution) (sched : Nat → RungObs) (st : SysState)
    (hticks : ∀ k, List.Pairwise (fun a b : Rat => a ≤ b)
      ((rungTicks true (sched k)).map clampTick)) :
    List.Pairwise (fun a b : Rat => a ≤ b)
      ((processEncodingJob jobId videoId inputPath resolutions sched st).1).progressTrace := by
  rcases hrun : rungLoop jobId videoId resolutions.length sched 0 resolutions (initialAcc jobId videoId st)
    with ⟨acc, res⟩
  have hpe : processEncodingJob jobId videoId inputPath resolutions sched st =
      finishJob jobId videoId inputPath resolutions (acc, res) := by
    unfold processEncodingJob
    rw [hrun]
  rw [hpe, finishJob_progressTrace]
  have hP0 : List.Pairwise (fun a b : Rat => a ≤ b) (initialAcc jobId videoId st).progressTrace := by
    simp [initialAcc]
  have hB0 : ∀ x ∈ (initialAcc jobId videoId st).progressTrace, x ≤ baseProg 0 resolutions.length := by
    intro x hx
    simp [initialAcc] at hx
    simp [hx, baseProg]
  have := (rungLoop_progress_pairwise jobId videoId resolutions.length sched hticks
    resolutions 0 (initialAcc jobId videoId st) hP0 hB0).1
  rw [hrun] at this
  exact this

/-- Witness for C1 (amended) at a concrete input: with every rung
delivering no ticks, the persisted progress trace of the example job is
non-decreasing. -/
theorem claim_C1_progress_monotone_witness :
    List.Pairwise (fun a b : Rat => a ≤ b)
      ((processEncodingJob "job1" "v1" "in.mp4" (getTargetResolutions 400)
        (schedOf []) exState).1).progressTrace :=
  claim_C1_progress_monotone "job1" "v1" "in.mp4" (getTargetResolutions 400) (schedOf []) exState
    (fun k => by simp [schedOf, rungTicks])

lemma fallback_progressTrace :
    ((processEncodingJob "job1" "v1" "in.mp4" (getTargetResolutions 400)
      (schedOf [obsFallback]) exState).1).progressTrace = [0, 0, 50, 10, 99] := by
  have hres : getTargetResolutions 400 =
      [⟨"360p", 640, 360, "600k", "96k"⟩] := by decide
  have h50 : overallOf 0 1 50 = 50 := by unfold overallOf clampTick; norm_num
  have h10 : overallOf 0 1 10 = 10 := by unfold overallOf clampTick; norm_num
  have h99 : overallOf 0 1 99 = 99 := by unfold overallOf clampTick; norm_num
  rw [hres]
  simp only [processEncodingJob, rungLoop, initialAcc, encodeStepAcc, successAcc, finishJob,
    schedOf, obsFallback, okAttempt, failAttempt, encodeToHLSResult, attemptResult, rungTicks,
    tickWrites, applyTickWrites, updateJob, List.getD, List.getElem?_cons_zero, Option.getD_some]
  norm_num [List.filter, h50, h10, h99]

/-- C1 counterexample.  The claim asserts the persisted progress is
non-decreasing for every sequence of progress callbacks, including a rung
re-attempted on the software backend after a hardware attempt.  At the
concrete input where the single rung's hardware attempt reports
50 percent (persisted as 50) and then fails, and its software retry
restarts at 10 percent (persisted as 10), the persisted progress trace is
0, 0, 50, 10, 99 — not monotone. -/
theorem claim_C1_counterexample :
    ¬ List.Pairwise (fun a b : Rat => a ≤ b)
      ((processEncodingJob "job1" "v1" "in.mp4" (getTargetResolutions 400)
        (schedOf [obsFallback]) exState).1).progressTrace := by
  rw [fallback_progressTrace]
  intro hp
  have h := (List.pairwise_cons.mp (List.pairwise_cons.mp hp).2).2
  have h5010 : (50 : Rat) ≤ 10 := (List.pairwise_cons.mp h).1 10 (by simp)
  norm_num at h5010

end AnisuPlayer
